import Mathlib

/-!
Verified shallow embedding of the core of the `finance-tracker` repository:
the transaction data model (`src/models/transaction.py`), the deduplicating
balance-maintaining store (`src/storage/database.py`), and the notification
parser (`src/parsers/cmb_email_parser.py`).

Modelling conventions:
* Python `Decimal` is modelled by `Dec` (integer mantissa, non-negative
  decimal scale), with the exact addition/subtraction Python performs and a
  `str` rendering matching `decimal.Decimal.__str__` for non-positive
  exponents.
* Python `datetime` is modelled by `PyDateTime` (year/month/day/hour/
  minute/second/microsecond) with `isoformat` rendering.
* `hashlib.sha256` and `hashlib.md5` are implemented bit-faithfully over
  the UTF-8 bytes of the input string (validated against CPython).
* The SQLite store is modelled logically: a list of account rows and a
  list of transaction rows.  `DECIMAL` columns hold `Dec` values and
  `DATETIME` columns hold `PyDateTime` values; the TEXT comparison SQLite
  performs on stored ISO-8601 strings is modelled by `memcmpLt` on the
  rendered strings.
-/

set_option maxRecDepth 100000

/-- 32-bit truncation. -/
def u32 (n : Nat) : Nat := n % 4294967296

/-- Right rotation of a 32-bit word. -/
def rotr32 (x k : Nat) : Nat := u32 (x / 2 ^ k + x * 2 ^ (32 - k))

/-- Left rotation of a 32-bit word. -/
def rotl32 (x k : Nat) : Nat := u32 (x * 2 ^ k + x / 2 ^ (32 - k))

/-- Right shift. -/
def shr32 (x k : Nat) : Nat := x / 2 ^ k

/-- Bitwise complement within 32 bits. -/
def bnot32 (x : Nat) : Nat := Nat.xor x 4294967295

/-- Decimal digit character (for digits 0–9). -/
def digitChar (n : Nat) : Char := Char.ofNat (48 + n)

/-- Hexadecimal digit character (lowercase, for 0–15). -/
def hexChar (n : Nat) : Char := if n < 10 then Char.ofNat (48 + n) else Char.ofNat (87 + n)

/-- UTF-8 encoding of one character, as byte values (mirrors `str.encode()`). -/
def utf8EncodeChar (c : Char) : List Nat :=
  let n := c.toNat
  if n < 128 then [n]
  else if n < 2048 then [192 + n / 64, 128 + n % 64]
  else if n < 65536 then [224 + n / 4096, 128 + n / 64 % 64, 128 + n % 64]
  else [240 + n / 262144, 128 + n / 4096 % 64, 128 + n / 64 % 64, 128 + n % 64]

/-- UTF-8 bytes of a string. -/
def utf8Bytes (s : String) : List Nat := (s.data.map utf8EncodeChar).flatten

/-- Big-endian 8-byte encoding of a (length) value. -/
def be64 (n : Nat) : List Nat :=
  [n / 2 ^ 56 % 256, n / 2 ^ 48 % 256, n / 2 ^ 40 % 256, n / 2 ^ 32 % 256,
   n / 2 ^ 24 % 256, n / 2 ^ 16 % 256, n / 2 ^ 8 % 256, n % 256]

/-- Little-endian 8-byte encoding of a (length) value. -/
def le64 (n : Nat) : List Nat :=
  [n % 256, n / 2 ^ 8 % 256, n / 2 ^ 16 % 256, n / 2 ^ 24 % 256,
   n / 2 ^ 32 % 256, n / 2 ^ 40 % 256, n / 2 ^ 48 % 256, n / 2 ^ 56 % 256]

/-- Merkle–Damgård padding: append 0x80, zeros to 56 mod 64, then the
bit length (big-endian for SHA-256, little-endian for MD5). -/
def mdPad (lenEnc : Nat → List Nat) (msg : List Nat) : List Nat :=
  let L := msg.length
  msg ++ 128 :: List.replicate ((119 - L % 64) % 64) 0 ++ lenEnc (8 * L)

/-- Split a byte list into 64-byte chunks (fuel-driven). -/
def chunks64 : Nat → List Nat → List (List Nat)
  | 0, _ => []
  | _, [] => []
  | fuel + 1, l => l.take 64 :: chunks64 fuel (l.drop 64)

/-- Big-endian 32-bit words from bytes. -/
def bytesToWordsBE : List Nat → List Nat
  | b0 :: b1 :: b2 :: b3 :: rest =>
    (b0 * 16777216 + b1 * 65536 + b2 * 256 + b3) :: bytesToWordsBE rest
  | _ => []

/-- Little-endian 32-bit words from bytes. -/
def bytesToWordsLE : List Nat → List Nat
  | b0 :: b1 :: b2 :: b3 :: rest =>
    (b0 + b1 * 256 + b2 * 65536 + b3 * 16777216) :: bytesToWordsLE rest
  | _ => []

/-- Iterate a function n times. -/
def iterateFn (f : α → α) : Nat → α → α
  | 0, a => a
  | n + 1, a => iterateFn f n (f a)

/-- SHA-256 round constants. -/
def sha256K : List Nat :=
  [1116352408, 1899447441, 3049323471, 3921009573, 961987163, 1508970993, 2453635748, 2870763221,
   3624381080, 310598401, 607225278, 1426881987, 1925078388, 2162078206, 2614888103, 3248222580,
   3835390401, 4022224774, 264347078, 604807628, 770255983, 1249150122, 1555081692, 1996064986,
   2554220882, 2821834349, 2952996808, 3210313671, 3336571891, 3584528711, 113926993, 338241895,
   666307205, 773529912, 1294757372, 1396182291, 1695183700, 1986661051, 2177026350, 2456956037,
   2730485921, 2820302411, 3259730800, 3345764771, 3516065817, 3600352804, 4094571909, 275423344,
   430227734, 506948616, 659060556, 883997877, 958139571, 1322822218, 1537002063, 1747873779,
   1955562222, 2024104815, 2227730452, 2361852424, 2428436474, 2756734187, 3204031479, 3329325298]

/-- SHA-256 initial state. -/
def sha256H0 : List Nat :=
  [1779033703, 3144134277, 1013904242, 2773480762, 1359893119, 2600822924, 528734635, 1541459225]

/-- One step of the SHA-256 message-schedule extension. -/
def sha256ExtendStep (w : List Nat) : List Nat :=
  let n := w.length
  let g (i : Nat) : Nat := w.getD i 0
  let s0 := Nat.xor (Nat.xor (rotr32 (g (n - 15)) 7) (rotr32 (g (n - 15)) 18)) (shr32 (g (n - 15)) 3)
  let s1 := Nat.xor (Nat.xor (rotr32 (g (n - 2)) 17) (rotr32 (g (n - 2)) 19)) (shr32 (g (n - 2)) 10)
  w ++ [u32 (g (n - 16) + s0 + g (n - 7) + s1)]

/-- SHA-256 working state. -/
structure Sha256St where
  a : Nat
  b : Nat
  c : Nat
  d : Nat
  e : Nat
  f : Nat
  g : Nat
  h : Nat

/-- One SHA-256 compression round; `wk` is the pair (schedule word, constant). -/
def sha256Round (st : Sha256St) (wk : Nat × Nat) : Sha256St :=
  let S1 := Nat.xor (Nat.xor (rotr32 st.e 6) (rotr32 st.e 11)) (rotr32 st.e 25)
  let ch := Nat.xor (Nat.land st.e st.f) (Nat.land (bnot32 st.e) st.g)
  let t1 := u32 (st.h + S1 + ch + wk.2 + wk.1)
  let S0 := Nat.xor (Nat.xor (rotr32 st.a 2) (rotr32 st.a 13)) (rotr32 st.a 22)
  let mj := Nat.xor (Nat.xor (Nat.land st.a st.b) (Nat.land st.a st.c)) (Nat.land st.b st.c)
  let t2 := u32 (S0 + mj)
  ⟨u32 (t1 + t2), st.a, st.b, st.c, u32 (st.d + t1), st.e, st.f, st.g⟩

/-- Process one 64-byte chunk of the SHA-256 input. -/
def sha256Chunk (hs : List Nat) (chunk : List Nat) : List Nat :=
  let ws := iterateFn sha256ExtendStep 48 (bytesToWordsBE chunk)
  let g (i : Nat) : Nat := hs.getD i 0
  let st0 : Sha256St := ⟨g 0, g 1, g 2, g 3, g 4, g 5, g 6, g 7⟩
  let st := (ws.zip sha256K).foldl sha256Round st0
  [u32 (g 0 + st.a), u32 (g 1 + st.b), u32 (g 2 + st.c), u32 (g 3 + st.d),
   u32 (g 4 + st.e), u32 (g 5 + st.f), u32 (g 6 + st.g), u32 (g 7 + st.h)]

/-- Render one 32-bit word as 8 lowercase hex characters. -/
def wordHex8 (w : Nat) : List Char :=
  [hexChar (w / 16 ^ 7 % 16), hexChar (w / 16 ^ 6 % 16), hexChar (w / 16 ^ 5 % 16),
   hexChar (w / 16 ^ 4 % 16), hexChar (w / 16 ^ 3 % 16), hexChar (w / 16 ^ 2 % 16),
   hexChar (w / 16 % 16), hexChar (w % 16)]

/-- SHA-256 digest state over a byte list. -/
def sha256Words (msg : List Nat) : List Nat :=
  let padded := mdPad be64 msg
  (chunks64 (padded.length + 1) padded).foldl sha256Chunk sha256H0

/-- Model of `hashlib.sha256(s.encode()).hexdigest()`. -/
def sha256hex (s : String) : String :=
  String.mk (((sha256Words (utf8Bytes s)).map wordHex8).flatten)

/-- MD5 sine-derived constants. -/
def md5T : List Nat :=
  [3614090360, 3905402710, 606105819, 3250441966, 4118548399, 1200080426, 2821735955, 4249261313,
   1770035416, 2336552879, 4294925233, 2304563134, 1804603682, 4254626195, 2792965006, 1236535329,
   4129170786, 3225465664, 643717713, 3921069994, 3593408605, 38016083, 3634488961, 3889429448,
   568446438, 3275163606, 4107603335, 1163531501, 2850285829, 4243563512, 1735328473, 2368359562,
   4294588738, 2272392833, 1839030562, 4259657740, 2763975236, 1272893353, 4139469664, 3200236656,
   681279174, 3936430074, 3572445317, 76029189, 3654602809, 3873151461, 530742520, 3299628645,
   4096336452, 1126891415, 2878612391, 4237533241, 1700485571, 2399980690, 4293915773, 2240044497,
   1873313359, 4264355552, 2734768916, 1309151649, 4149444226, 3174756917, 718787259, 3951481745]

/-- MD5 per-round left-rotation amounts. -/
def md5S : List Nat :=
  [7, 12, 17, 22, 7, 12, 17, 22, 7, 12, 17, 22, 7, 12, 17, 22,
   5, 9, 14, 20, 5, 9, 14, 20, 5, 9, 14, 20, 5, 9, 14, 20,
   4, 11, 16, 23, 4, 11, 16, 23, 4, 11, 16, 23, 4, 11, 16, 23,
   6, 10, 15, 21, 6, 10, 15, 21, 6, 10, 15, 21, 6, 10, 15, 21]

/-- MD5 working state. -/
structure Md5St where
  a : Nat
  b : Nat
  c : Nat
  d : Nat

/-- One MD5 round, with message words `m` and round index `i`. -/
def md5Round (m : List Nat) (st : Md5St) (i : Nat) : Md5St :=
  let fg : Nat × Nat :=
    if i < 16 then
      (Nat.lor (Nat.land st.b st.c) (Nat.land (bnot32 st.b) st.d), i)
    else if i < 32 then
      (Nat.lor (Nat.land st.d st.b) (Nat.land (bnot32 st.d) st.c), (5 * i + 1) % 16)
    else if i < 48 then
      (Nat.xor (Nat.xor st.b st.c) st.d, (3 * i + 5) % 16)
    else
      (Nat.xor st.c (Nat.lor st.b (bnot32 st.d)), (7 * i) % 16)
  let f := u32 (fg.1 + st.a + md5T.getD i 0 + m.getD fg.2 0)
  ⟨st.d, u32 (st.b + rotl32 f (md5S.getD i 0)), st.b, st.c⟩

/-- Process one 64-byte chunk of the MD5 input. -/
def md5Chunk (hs : List Nat) (chunk : List Nat) : List Nat :=
  let m := bytesToWordsLE chunk
  let g (i : Nat) : Nat := hs.getD i 0
  let st := (List.range 64).foldl (md5Round m) ⟨g 0, g 1, g 2, g 3⟩
  [u32 (g 0 + st.a), u32 (g 1 + st.b), u32 (g 2 + st.c), u32 (g 3 + st.d)]

/-- Render one 32-bit word as hex of its little-endian bytes. -/
def wordHexLE (w : Nat) : List Char :=
  [hexChar (w / 16 % 16), hexChar (w % 16),
   hexChar (w / 16 ^ 3 % 16), hexChar (w / 16 ^ 2 % 16),
   hexChar (w / 16 ^ 5 % 16), hexChar (w / 16 ^ 4 % 16),
   hexChar (w / 16 ^ 7 % 16), hexChar (w / 16 ^ 6 % 16)]

/-- Model of `hashlib.md5(s.encode()).hexdigest()`. -/
def md5hex (s : String) : String :=
  let padded := mdPad le64 (utf8Bytes s)
  let hs := (chunks64 (padded.length + 1) padded).foldl md5Chunk
    [1732584193, 4023233417, 2562383102, 271733878]
  String.mk ((hs.map wordHexLE).flatten)

/-! ## Python `Decimal` model (`decimal.Decimal` as used by the repository) -/

/-- Python `Decimal` value: integer mantissa and non-negative decimal scale,
representing `mant / 10 ^ exp`.  Matches the `(sign, digits, exponent)`
representation of `decimal.Decimal` for non-positive exponents, the only
ones this code base produces. -/
structure Dec where
  mant : Int
  exp : Nat
deriving DecidableEq

/-- `Decimal("0")`. -/
def Dec.zero : Dec := ⟨0, 0⟩

/-- Exact `Decimal` addition (result exponent is the smaller of the two). -/
def Dec.add (a b : Dec) : Dec :=
  let e := max a.exp b.exp
  ⟨a.mant * (10 : Int) ^ (e - a.exp) + b.mant * (10 : Int) ^ (e - b.exp), e⟩

/-- Exact `Decimal` subtraction. -/
def Dec.sub (a b : Dec) : Dec :=
  let e := max a.exp b.exp
  ⟨a.mant * (10 : Int) ^ (e - a.exp) - b.mant * (10 : Int) ^ (e - b.exp), e⟩

/-- Decimal digits of `n` (most significant first), fuel-driven. -/
def natCharsAux : Nat → Nat → List Char
  | 0, _ => []
  | fuel + 1, n => if n = 0 then [] else natCharsAux fuel (n / 10) ++ [digitChar (n % 10)]

/-- Decimal rendering of a natural number (mirrors `str(int)`). -/
def natChars (n : Nat) : List Char := if n = 0 then ['0'] else natCharsAux n n

/-- Fixed-point rendering of coefficient `m` at scale `e`
(e.g. `300, 2 ↦ "3.00"`, `5, 2 ↦ "0.05"`). -/
def natDecChars (m e : Nat) : List Char :=
  let ds := natChars m
  if e = 0 then ds
  else if ds.length ≤ e then '0' :: '.' :: (List.replicate (e - ds.length) '0' ++ ds)
  else ds.take (ds.length - e) ++ '.' :: ds.drop (ds.length - e)

/-- Scientific rendering used by `Decimal.__str__` when the adjusted
exponent is below -6 (e.g. `12, 8 ↦ "1.2E-7"`). -/
def sciChars (m e : Nat) : List Char :=
  match natChars m with
  | [] => []
  | d :: rest =>
    (if rest.isEmpty then [d] else d :: '.' :: rest) ++ 'E' :: '-' :: natChars (e - rest.length)

/-- Magnitude rendering of `Decimal.__str__` (fixed-point unless the
adjusted exponent `(digits - 1) - e` is below -6). -/
def pyDecChars (m e : Nat) : List Char :=
  if e ≤ (natChars m).length + 5 then natDecChars m e else sciChars m e

/-- Model of `str(decimal_value)`. -/
def decStr (d : Dec) : String :=
  if d.mant < 0 then String.mk ('-' :: pyDecChars d.mant.natAbs d.exp)
  else String.mk (pyDecChars d.mant.toNat d.exp)

/-- Numeric value of a digit string. -/
def charsVal (cs : List Char) : Nat := cs.foldl (fun a c => 10 * a + (c.toNat - 48)) 0

/-- ASCII decimal digit test. -/
def isDigitChar (c : Char) : Bool := 48 ≤ c.toNat && c.toNat ≤ 57

/-- Model of the `Decimal` constructor on the numeral strings this code
base feeds it (digits with at most one point; anything else — e.g. the
string `"None"` arising from `str(None)` — fails, modelling the raised
`InvalidOperation`). -/
def parseDec (s : String) : Option Dec :=
  match s.data.splitOn '.' with
  | [intp] =>
    if intp.all isDigitChar && !intp.isEmpty then some ⟨charsVal intp, 0⟩ else none
  | [intp, frac] =>
    if (intp ++ frac).all isDigitChar && !(intp.isEmpty && frac.isEmpty) then
      some ⟨charsVal (intp ++ frac), frac.length⟩
    else none
  | _ => none

/-! ## Python `datetime` model -/

/-- Python `datetime.datetime` (fixed assumed time zone, as in the source). -/
structure PyDateTime where
  year : Nat
  month : Nat
  day : Nat
  hour : Nat
  minute : Nat
  second : Nat
  micro : Nat
deriving DecidableEq

/-- Two-digit zero-padded rendering (valid for values below 100). -/
def pad2 (n : Nat) : List Char := [digitChar (n / 10), digitChar (n % 10)]

/-- Four-digit zero-padded rendering (valid for values below 10000). -/
def pad4 (n : Nat) : List Char :=
  [digitChar (n / 1000), digitChar (n / 100 % 10), digitChar (n / 10 % 10), digitChar (n % 10)]

/-- Six-digit zero-padded rendering (valid for values below 1000000). -/
def pad6 (n : Nat) : List Char :=
  [digitChar (n / 100000), digitChar (n / 10000 % 10), digitChar (n / 1000 % 10),
   digitChar (n / 100 % 10), digitChar (n / 10 % 10), digitChar (n % 10)]

/-- Characters of `datetime.isoformat()` (microseconds omitted when zero,
exactly as in Python). -/
def isoChars (t : PyDateTime) : List Char :=
  pad4 t.year ++ '-' :: (pad2 t.month ++ '-' :: (pad2 t.day ++ 'T' ::
    (pad2 t.hour ++ ':' :: (pad2 t.minute ++ ':' :: (pad2 t.second ++
      (if t.micro = 0 then [] else '.' :: pad6 t.micro))))))

/-- Model of `datetime.isoformat()`. -/
def isoformat (t : PyDateTime) : String := String.mk (isoChars t)

/-- Gregorian leap-year rule (as implemented by `datetime`). -/
def isLeap (y : Nat) : Bool := (y % 4 == 0 && y % 100 != 0) || y % 400 == 0

/-- Days in a month. -/
def daysInMonth (y m : Nat) : Nat :=
  if m = 2 then (if isLeap y then 29 else 28)
  else if m = 4 || m = 6 || m = 9 || m = 11 then 30 else 31

/-- The invariants `datetime.datetime` enforces on its fields. -/
def ValidDT (t : PyDateTime) : Prop :=
  1 ≤ t.year ∧ t.year ≤ 9999 ∧ 1 ≤ t.month ∧ t.month ≤ 12 ∧
  1 ≤ t.day ∧ t.day ≤ daysInMonth t.year t.month ∧
  t.hour ≤ 23 ∧ t.minute ≤ 59 ∧ t.second ≤ 59 ∧ t.micro ≤ 999999

instance (t : PyDateTime) : Decidable (ValidDT t) := by
  unfold ValidDT; infer_instance

/-- Chronological key: injective and monotone on valid datetimes. -/
def dtKey (t : PyDateTime) : Nat :=
  ((((t.year * 100 + t.month) * 100 + t.day) * 100 + t.hour) * 100 + t.minute) * 100000000 +
    t.second * 1000000 + t.micro

/-- Byte-wise (memcmp/BINARY-collation) string order, as SQLite compares
TEXT values; for the ASCII ISO-8601 strings stored here, character-wise
comparison coincides with byte-wise comparison. -/
def memcmpLt : List Char → List Char → Bool
  | [], [] => false
  | [], _ :: _ => true
  | _ :: _, [] => false
  | a :: as, b :: bs =>
    if a.toNat < b.toNat then true
    else if b.toNat < a.toNat then false
    else memcmpLt as bs

/-- The comparison `last_sync_time < ?` executed by SQLite on two stored
ISO-8601 TEXT values. -/
def dtLtStore (old new : PyDateTime) : Bool := memcmpLt (isoChars old) (isoChars new)

/-! ## Transaction record model (`src/models/transaction.py`) -/

/-- Mirror of the `Counterparty` dataclass. -/
structure Counterparty where
  name : String
  type : Option String := none
  category : Option String := none
deriving DecidableEq

/-- Mirror of the `PaymentChannel` dataclass. -/
structure PaymentChannel where
  name : Option String := none
  provider : Option String := none
  method : Option String := none
deriving DecidableEq

/-- Mirror of the `Location` dataclass. -/
structure Location where
  city : Option String := none
  country : Option String := none
  address : Option String := none
deriving DecidableEq

/-- Mirror of the `RawTransaction` dataclass (metadata modelled as an
association list, in insertion order). -/
structure RawTransaction where
  raw_id : String
  source_type : String
  source_account : String
  transaction_time : PyDateTime
  account_id : String
  transaction_type : String
  amount : Dec
  timezone : String := "Asia/Shanghai"
  account_type : Option String := none
  account_name : Option String := none
  currency : String := "CNY"
  balance : Option Dec := none
  counterparty : Option Counterparty := none
  channel : Option PaymentChannel := none
  location : Option Location := none
  metadata : List (String × String) := []
  raw_data : String := ""
  tags : List String := []
  notes : String := ""
  status : String := "confirmed"
  verification_status : String := "unverified"
deriving DecidableEq

/-- The `self.counterparty.name if self.counterparty else 'unknown'` part
of the fingerprint input. -/
def cpNameOrUnknown (t : RawTransaction) : String :=
  match t.counterparty with
  | some cp => cp.name
  | none => "unknown"

/-- The colon-separated `key_data` string of
`RawTransaction.generate_transaction_id`. -/
def key_data (t : RawTransaction) : String :=
  t.source_type ++ ":" ++ t.source_account ++ ":" ++ isoformat t.transaction_time ++ ":" ++
    t.account_id ++ ":" ++ decStr t.amount ++ ":" ++ cpNameOrUnknown t

/-- Model of `RawTransaction.generate_transaction_id`: first 16 hex
characters of the SHA-256 digest of `key_data`. -/
def generate_transaction_id (t : RawTransaction) : String :=
  (sha256hex (key_data t)).take 16

/-! ## Transaction store model (`src/storage/database.py`) -/

/-- One row of the `accounts` table (the columns the modelled operations
touch; `account_id` carries a UNIQUE constraint, `id` autoincrements). -/
structure AccountRow where
  id : Nat
  account_id : String
  account_name : Option String := none
  account_type : Option String := none
  current_balance : Option Dec := none
  last_sync_time : Option PyDateTime := none
deriving DecidableEq

/-- One row of the `transactions` table, as assembled by
`_transaction_to_db_dict` (columns not set there default to NULL). -/
structure TxRow where
  transaction_id : String
  raw_id : String
  source_type : String
  source_account : String
  transaction_time : String
  timezone : String
  account_id : String
  account_pk : Option Nat
  account_type : Option String
  account_name : Option String
  transaction_type : String
  amount : String
  currency : String
  balance : Option String
  metadata : Option (List (String × String))
  raw_data : String
  tags : Option (List String)
  notes : String
  status : String
  verification_status : String
  counterparty_name : Option String := none
  counterparty_type : Option String := none
  counterparty_category : Option String := none
  channel_name : Option String := none
  channel_provider : Option String := none
  channel_method : Option String := none
  location_city : Option String := none
  location_country : Option String := none
deriving DecidableEq

/-- Model of `_transaction_to_db_dict` (note the Python truthiness tests:
a zero balance, an empty metadata dict and an empty tag list are stored
as NULL; `json.dumps` is modelled as the identity injection). -/
def _transaction_to_db_dict (t : RawTransaction) (tid : String) : TxRow :=
  let base : TxRow :=
    { transaction_id := tid
      raw_id := t.raw_id
      source_type := t.source_type
      source_account := t.source_account
      transaction_time := isoformat t.transaction_time
      timezone := t.timezone
      account_id := t.account_id
      account_pk := none
      account_type := t.account_type
      account_name := t.account_name
      transaction_type := t.transaction_type
      amount := decStr t.amount
      currency := t.currency
      balance := match t.balance with
        | some b => if b.mant = 0 then none else some (decStr b)
        | none => none
      metadata := if t.metadata.isEmpty then none else some t.metadata
      raw_data := t.raw_data
      tags := if t.tags.isEmpty then none else some t.tags
      notes := t.notes
      status := t.status
      verification_status := t.verification_status }
  let base := match t.counterparty with
    | some cp => { base with counterparty_name := some cp.name,
                             counterparty_type := cp.type,
                             counterparty_category := cp.category }
    | none => base
  let base := match t.channel with
    | some ch => { base with channel_name := ch.name,
                             channel_provider := ch.provider,
                             channel_method := ch.method }
    | none => base
  match t.location with
  | some loc => { base with location_city := loc.city, location_country := loc.country }
  | none => base

/-- The logical database state: the two related tables. -/
structure DBState where
  accounts : List AccountRow
  transactions : List TxRow
deriving DecidableEq

/-- A freshly initialised database. -/
def emptyDB : DBState := ⟨[], []⟩

/-- `SELECT ... FROM accounts WHERE account_id = ?` with `fetchone()`. -/
def findAccount (accts : List AccountRow) (account_id : String) : Option AccountRow :=
  accts.find? (fun a => a.account_id == account_id)

/-- `INSERT OR IGNORE INTO accounts (account_id, account_name, account_type)`. -/
def insertOrIgnoreAccount (accts : List AccountRow) (account_id : String)
    (account_name account_type : Option String) : List AccountRow :=
  if (findAccount accts account_id).isSome then accts
  else accts ++ [{ id := accts.length, account_id := account_id,
                   account_name := account_name, account_type := account_type }]

/-- The `UPDATE accounts SET account_name = COALESCE(account_name, ?), ...`
statement of `_ensure_account`. -/
def updateAccountCoalesce (accts : List AccountRow) (account_id : String)
    (account_name account_type : Option String) : List AccountRow :=
  accts.map fun a =>
    if a.account_id == account_id then
      { a with account_name := a.account_name <|> account_name,
               account_type := a.account_type <|> account_type }
    else a

/-- Model of `_ensure_account`: create-if-absent, coalesce-only update of
the descriptive fields, and return the primary key. -/
def _ensure_account (accts : List AccountRow) (account_id : String)
    (account_name account_type : Option String) : List AccountRow × Option Nat :=
  let accts1 := insertOrIgnoreAccount accts account_id account_name account_type
  let accts2 := updateAccountCoalesce accts1 account_id account_name account_type
  (accts2, (findAccount accts2 account_id).map (·.id))

/-- Model of `update_account_last_sync_time`: create-if-absent, then an
UPDATE whose WHERE clause requires `last_sync_time IS NULL OR
last_sync_time < ?` (SQLite TEXT comparison of ISO-8601 strings). -/
def update_account_last_sync_time (s : DBState) (account_id : String)
    (last_sync_time : PyDateTime) (account_name account_type : Option String) : DBState :=
  let accts1 := insertOrIgnoreAccount s.accounts account_id account_name account_type
  let accts2 := accts1.map fun a =>
    if a.account_id == account_id &&
        (match a.last_sync_time with
         | none => true
         | some old => dtLtStore old last_sync_time) then
      { a with last_sync_time := some last_sync_time,
               account_name := a.account_name <|> account_name,
               account_type := a.account_type <|> account_type }
    else a
  { s with accounts := accts2 }

/-- Model of `update_account_current_balance`: create-if-absent, then an
unconditional replace of `current_balance` (plus coalesce-only updates of
the descriptive fields). -/
def update_account_current_balance (s : DBState) (account_id : String)
    (current_balance : Dec) (account_name account_type : Option String) : DBState :=
  let accts1 := insertOrIgnoreAccount s.accounts account_id account_name account_type
  let accts2 := accts1.map fun a =>
    if a.account_id == account_id then
      { a with current_balance := some current_balance,
               account_name := a.account_name <|> account_name,
               account_type := a.account_type <|> account_type }
    else a
  { s with accounts := accts2 }

/-- Model of `_infer_balance_delta`: debit-like types subtract, credit-like
types add, anything else yields no delta. -/
def _infer_balance_delta (t : RawTransaction) : Option Dec :=
  if t.transaction_type ∈ ["consumption", "transfer_out", "fee"] then
    some (Dec.zero.sub t.amount)
  else if t.transaction_type ∈ ["income", "transfer_in", "refund", "interest", "dividend"] then
    some t.amount
  else none

/-- Model of `_sync_current_balance`: an explicit balance replaces the
stored one outright; otherwise the inferred delta is applied to the
current stored balance (zero if unknown); no delta means no change. -/
def _sync_current_balance (s : DBState) (t : RawTransaction) : DBState :=
  match t.balance with
  | some b => update_account_current_balance s t.account_id b t.account_name t.account_type
  | none =>
    match _infer_balance_delta t with
    | none => s
    | some delta =>
      let current := match (findAccount s.accounts t.account_id).bind (·.current_balance) with
        | some v => v
        | none => Dec.zero
      update_account_current_balance s t.account_id (current.add delta)
        t.account_name t.account_type

/-- `SELECT id FROM transactions WHERE transaction_id = ?` succeeded? -/
def containsTid (s : DBState) (tid : String) : Bool :=
  s.transactions.any (fun r => r.transaction_id == tid)

/-- Model of `save_transaction` on the no-failure path: fingerprint
pre-check, account ensure, row insert, last-sync advance, balance sync. -/
def save_transaction (s : DBState) (t : RawTransaction) : (Bool × String) × DBState :=
  let tid := generate_transaction_id t
  if containsTid s tid then ((false, "duplicate"), s)
  else
    let ea := _ensure_account s.accounts t.account_id t.account_name t.account_type
    let row := { _transaction_to_db_dict t tid with account_pk := ea.2 }
    let s1 : DBState := { accounts := ea.1, transactions := s.transactions ++ [row] }
    let s2 := update_account_last_sync_time s1 t.account_id t.transaction_time
      t.account_name t.account_type
    let s3 := _sync_current_balance s2 t
    ((true, "saved"), s3)

/-- The sub-operations of `save_transaction` at which an exception can be
raised (each is caught by the `except` clauses, which roll back only the
outer connection). -/
inductive FailStep
  | ensure
  | insert
  | lastSync
  | balance
deriving DecidableEq

/-- Model of `save_transaction` with an injected failure.  It mirrors the
commit structure of the source: `_ensure_account`,
`update_account_last_sync_time` and `_sync_current_balance` each open,
commit and close their own connection, and the row insert is committed by
`conn.commit()` before the last two are invoked, so a failure rolls back
only the work of the step it occurs in. -/
def save_transaction_fault (fail : Option FailStep) (s : DBState) (t : RawTransaction) :
    (Bool × String) × DBState :=
  let tid := generate_transaction_id t
  if containsTid s tid then ((false, "duplicate"), s)
  else if fail = some FailStep.ensure then ((false, "error"), s)
  else
    let ea := _ensure_account s.accounts t.account_id t.account_name t.account_type
    if fail = some FailStep.insert then ((false, "error"), { s with accounts := ea.1 })
    else
      let row := { _transaction_to_db_dict t tid with account_pk := ea.2 }
      let s1 : DBState := { accounts := ea.1, transactions := s.transactions ++ [row] }
      if fail = some FailStep.lastSync then ((false, "error"), s1)
      else
        let s2 := update_account_last_sync_time s1 t.account_id t.transaction_time
          t.account_name t.account_type
        if fail = some FailStep.balance then ((false, "error"), s2)
        else ((true, "saved"), _sync_current_balance s2 t)

/-- The stored `current_balance` of an account (NULL/absent as `none`). -/
def currentBalanceOf (s : DBState) (account_id : String) : Option Dec :=
  (findAccount s.accounts account_id).bind (·.current_balance)

/-- Model of `get_last_sync_time` (the ISO string round-trips through
`datetime.fromisoformat`). -/
def get_last_sync_time (s : DBState) (account_id : String) : Option PyDateTime :=
  (findAccount s.accounts account_id).bind (·.last_sync_time)

/-! ## Store helper lemmas -/

/-- The row dictionary always carries the computed fingerprint. -/
theorem tx_dict_transaction_id (t : RawTransaction) (tid : String) :
    (_transaction_to_db_dict t tid).transaction_id = tid := by
  unfold _transaction_to_db_dict
  rcases t.counterparty with _ | cp <;> rcases t.channel with _ | ch <;>
    rcases t.location with _ | loc <;> rfl

/-- `update_account_last_sync_time` touches only the `accounts` table. -/
theorem update_lst_transactions (s : DBState) (id : String) (lst : PyDateTime)
    (n ty : Option String) :
    (update_account_last_sync_time s id lst n ty).transactions = s.transactions := rfl

/-- `update_account_current_balance` touches only the `accounts` table. -/
theorem update_bal_transactions (s : DBState) (id : String) (v : Dec)
    (n ty : Option String) :
    (update_account_current_balance s id v n ty).transactions = s.transactions := rfl

/-- `_sync_current_balance` touches only the `accounts` table. -/
theorem sync_balance_transactions (s : DBState) (t : RawTransaction) :
    (_sync_current_balance s t).transactions = s.transactions := by
  unfold _sync_current_balance
  rcases t.balance with _ | b
  · rcases _infer_balance_delta t with _ | d <;> rfl
  · rfl

/-- A mapped update that leaves non-matching rows untouched and preserves
the key of matching rows commutes with `findAccount`. -/
theorem findAccount_map_guard (l : List AccountRow) (id : String)
    (g : AccountRow → AccountRow)
    (hk : ∀ a, (g a).account_id = a.account_id)
    (ho : ∀ a, a.account_id ≠ id → g a = a) :
    findAccount (l.map g) id = (findAccount l id).map g := by
  induction l with
  | nil => rfl
  | cons a l ih =>
    by_cases h : a.account_id = id
    · simp [findAccount, List.find?, hk, h]
    · have hga : g a = a := ho a h
      simp only [findAccount, List.map_cons, List.find?, hga] at *
      simp only [show (a.account_id == id) = false by simp [h]]
      exact ih

/-- `findAccount` distributes over append. -/
theorem findAccount_append (l₁ l₂ : List AccountRow) (id : String) :
    findAccount (l₁ ++ l₂) id =
      match findAccount l₁ id with
      | some a => some a
      | none => findAccount l₂ id := by
  induction l₁ with
  | nil => rfl
  | cons a l ih =>
    by_cases h : a.account_id = id
    · simp [findAccount, List.find?, h]
    · simp only [findAccount, List.cons_append, List.find?] at *
      simp only [show (a.account_id == id) = false by simp [h]]
      exact ih

/-- After `INSERT OR IGNORE`, the account exists. -/
theorem findAccount_insertOrIgnore_isSome (l : List AccountRow) (id : String)
    (n ty : Option String) :
    (findAccount (insertOrIgnoreAccount l id n ty) id).isSome = true := by
  unfold insertOrIgnoreAccount
  cases hf : findAccount l id with
  | some a => simp [hf]
  | none =>
    simp only [hf, Option.isSome_none, Bool.false_eq_true, if_false]
    rw [findAccount_append, hf]
    simp [findAccount, List.find?]

/-- `INSERT OR IGNORE` preserves the stored balance of every account
(a freshly inserted row has a NULL balance). -/
theorem cb_insertOrIgnore (l : List AccountRow) (id id' : String) (n ty : Option String) :
    (findAccount (insertOrIgnoreAccount l id n ty) id').bind (·.current_balance) =
      (findAccount l id').bind (·.current_balance) := by
  unfold insertOrIgnoreAccount
  cases hf : findAccount l id with
  | some a => simp [hf]
  | none =>
    simp only [hf, Option.isSome_none, Bool.false_eq_true, if_false]
    rw [findAccount_append]
    cases hf' : findAccount l id' with
    | some a => rfl
    | none =>
      by_cases h : id = id'
      · simp [findAccount, List.find?, h]
      · simp [findAccount, List.find?, show ¬(id == id') = true by simp [h]]

/-- `INSERT OR IGNORE` preserves the stored last-sync time of every account. -/
theorem lst_insertOrIgnore (l : List AccountRow) (id id' : String) (n ty : Option String) :
    (findAccount (insertOrIgnoreAccount l id n ty) id').bind (·.last_sync_time) =
      (findAccount l id').bind (·.last_sync_time) := by
  unfold insertOrIgnoreAccount
  cases hf : findAccount l id with
  | some a => simp [hf]
  | none =>
    simp only [hf, Option.isSome_none, Bool.false_eq_true, if_false]
    rw [findAccount_append]
    cases hf' : findAccount l id' with
    | some a => rfl
    | none =>
      by_cases h : id = id'
      · simp [findAccount, List.find?, h]
      · simp [findAccount, List.find?, show ¬(id == id') = true by simp [h]]
/-- A key-preserving row update commutes with `findAccount`. -/
theorem findAccount_map_keyPres (l : List AccountRow) (id : String)
    (g : AccountRow → AccountRow) (hk : ∀ a, (g a).account_id = a.account_id) :
    findAccount (l.map g) id = (findAccount l id).map g := by
  induction l with
  | nil => rfl
  | cons a l ih =>
    by_cases h : a.account_id = id
    · simp [findAccount, List.find?, hk, h]
    · simp only [findAccount, List.map_cons, List.find?, hk] at *
      simp only [show (a.account_id == id) = false by simp [h]]
      exact ih

/-- A found account row matches the requested key. -/
theorem findAccount_eq_id (l : List AccountRow) (id : String) (a : AccountRow)
    (h : findAccount l id = some a) : a.account_id = id := by
  have := List.find?_some h
  simpa using this

/-- Mapping a row update that preserves a projection preserves the
projected value of an optional row. -/
theorem map_bind_pres {β : Type} (o : Option AccountRow) (g : AccountRow → AccountRow)
    (f : AccountRow → Option β) (hg : ∀ a, f (g a) = f a) :
    (o.map g).bind f = o.bind f := by
  cases o <;> simp [hg]

/-- `update_account_last_sync_time` preserves every stored balance. -/
theorem cb_update_lst (s : DBState) (id : String) (lst : PyDateTime)
    (n ty : Option String) (id' : String) :
    currentBalanceOf (update_account_last_sync_time s id lst n ty) id' =
      currentBalanceOf s id' := by
  unfold currentBalanceOf update_account_last_sync_time
  rw [findAccount_map_keyPres _ _ _ (fun a => by split <;> rfl),
    map_bind_pres _ _ _ (fun a => by split <;> rfl),
    cb_insertOrIgnore]

/-- `updateAccountCoalesce` preserves every stored balance. -/
theorem cb_coalesce (l : List AccountRow) (id : String) (n ty : Option String) (id' : String) :
    (findAccount (updateAccountCoalesce l id n ty) id').bind (·.current_balance) =
      (findAccount l id').bind (·.current_balance) := by
  unfold updateAccountCoalesce
  rw [findAccount_map_keyPres _ _ _ (fun a => by split <;> rfl),
    map_bind_pres _ _ _ (fun a => by split <;> rfl)]

/-- `_ensure_account` preserves every stored balance. -/
theorem cb_ensure (accts : List AccountRow) (id : String) (n ty : Option String)
    (id' : String) :
    (findAccount (_ensure_account accts id n ty).1 id').bind (·.current_balance) =
      (findAccount accts id').bind (·.current_balance) := by
  unfold _ensure_account
  rw [cb_coalesce, cb_insertOrIgnore]

/-- `updateAccountCoalesce` preserves every stored last-sync time. -/
theorem lst_coalesce (l : List AccountRow) (id : String) (n ty : Option String) (id' : String) :
    (findAccount (updateAccountCoalesce l id n ty) id').bind (·.last_sync_time) =
      (findAccount l id').bind (·.last_sync_time) := by
  unfold updateAccountCoalesce
  rw [findAccount_map_keyPres _ _ _ (fun a => by split <;> rfl),
    map_bind_pres _ _ _ (fun a => by split <;> rfl)]

/-- `_ensure_account` preserves every stored last-sync time. -/
theorem lst_ensure (accts : List AccountRow) (id : String) (n ty : Option String)
    (id' : String) :
    (findAccount (_ensure_account accts id n ty).1 id').bind (·.last_sync_time) =
      (findAccount accts id').bind (·.last_sync_time) := by
  unfold _ensure_account
  rw [lst_coalesce, lst_insertOrIgnore]

/-- `update_account_current_balance` preserves every stored last-sync time. -/
theorem lst_update_bal (s : DBState) (id : String) (v : Dec) (n ty : Option String)
    (id' : String) :
    get_last_sync_time (update_account_current_balance s id v n ty) id' =
      get_last_sync_time s id' := by
  unfold get_last_sync_time update_account_current_balance
  rw [findAccount_map_keyPres _ _ _ (fun a => by split <;> rfl),
    map_bind_pres _ _ _ (fun a => by split <;> rfl),
    lst_insertOrIgnore]

/-- `_sync_current_balance` preserves every stored last-sync time. -/
theorem lst_sync_balance (s : DBState) (t : RawTransaction) (id' : String) :
    get_last_sync_time (_sync_current_balance s t) id' = get_last_sync_time s id' := by
  unfold _sync_current_balance
  rcases t.balance with _ | b
  · rcases _infer_balance_delta t with _ | d
    · rfl
    · rw [lst_update_bal]
  · rw [lst_update_bal]

/-- After `update_account_current_balance`, the targeted account stores
exactly the written balance. -/
theorem cb_update_bal (s : DBState) (id : String) (v : Dec) (n ty : Option String) :
    currentBalanceOf (update_account_current_balance s id v n ty) id = some v := by
  unfold currentBalanceOf update_account_current_balance
  rw [findAccount_map_keyPres]
  · have hs := findAccount_insertOrIgnore_isSome s.accounts id n ty
    cases hf : findAccount (insertOrIgnoreAccount s.accounts id n ty) id with
    | none => rw [hf] at hs; simp at hs
    | some a =>
      have ha := findAccount_eq_id _ _ _ hf
      simp [hf, ha]
  · intro a
    split <;> rfl

/-- After `update_account_last_sync_time`, the targeted account stores the
maximum (in store order) of the previous value and the new timestamp. -/
theorem lst_update_lst (s : DBState) (id : String) (lst : PyDateTime)
    (n ty : Option String) :
    get_last_sync_time (update_account_last_sync_time s id lst n ty) id =
      some (match get_last_sync_time s id with
            | none => lst
            | some old => if dtLtStore old lst then lst else old) := by
  unfold get_last_sync_time update_account_last_sync_time
  rw [findAccount_map_keyPres]
  · have hs := findAccount_insertOrIgnore_isSome s.accounts id n ty
    have hins := lst_insertOrIgnore s.accounts id id n ty
    cases hf : findAccount (insertOrIgnoreAccount s.accounts id n ty) id with
    | none => rw [hf] at hs; simp at hs
    | some a =>
      have ha := findAccount_eq_id _ _ _ hf
      rw [hf] at hins
      simp only [Option.map_some, Option.some_bind] at hins ⊢
      rw [← hins]
      cases hl : a.last_sync_time with
      | none => simp [ha, hl]
      | some old =>
        by_cases hcmp : dtLtStore old lst = true
        · simp [ha, hl, hcmp]
        · simp only [Bool.not_eq_true] at hcmp
          simp [ha, hl, hcmp]
  · intro a
    split <;> rfl

/-- On a fresh fingerprint, `save_transaction` takes the full insert path. -/
theorem save_transaction_not_dup (s : DBState) (t : RawTransaction)
    (h : containsTid s (generate_transaction_id t) = false) :
    save_transaction s t =
      (((true, "saved")),
        _sync_current_balance
          (update_account_last_sync_time
            ⟨(_ensure_account s.accounts t.account_id t.account_name t.account_type).1,
              s.transactions ++
                [{ _transaction_to_db_dict t (generate_transaction_id t) with
                    account_pk :=
                      (_ensure_account s.accounts t.account_id t.account_name
                        t.account_type).2 }]⟩
            t.account_id t.transaction_time t.account_name t.account_type)
          t) := by
  unfold save_transaction
  simp only [h, Bool.false_eq_true, if_false]
/-- On a known fingerprint, `save_transaction` is a no-op returning
`duplicate`. -/
theorem save_transaction_dup (s : DBState) (t : RawTransaction)
    (h : containsTid s (generate_transaction_id t) = true) :
    save_transaction s t = ((false, "duplicate"), s) := by
  unfold save_transaction
  simp only [h, if_true]

/-- The `transactions` table after a fresh save is the old table plus the
one new row. -/
theorem save_transaction_transactions (s : DBState) (t : RawTransaction)
    (h : containsTid s (generate_transaction_id t) = false) :
    (save_transaction s t).2.transactions =
      s.transactions ++
        [{ _transaction_to_db_dict t (generate_transaction_id t) with
            account_pk :=
              (_ensure_account s.accounts t.account_id t.account_name t.account_type).2 }] := by
  rw [save_transaction_not_dup s t h]
  rw [show ∀ p : (Bool × String) × DBState, p.2.transactions = p.2.transactions from fun _ => rfl]
  rw [sync_balance_transactions, update_lst_transactions]

/-- After a fresh save, the fingerprint is present. -/
theorem save_transaction_contains (s : DBState) (t : RawTransaction)
    (h : containsTid s (generate_transaction_id t) = false) :
    containsTid (save_transaction s t).2 (generate_transaction_id t) = true := by
  unfold containsTid
  rw [save_transaction_transactions s t h]
  simp [tx_dict_transaction_id]

/-- Sample record: consumption of 3.00 with no explicit balance (the
repository's own regression-test record). -/
def sampleTx : RawTransaction :=
  { raw_id := "raw-1", source_type := "cmb_email", source_account := "test@example.com",
    transaction_time := ⟨2026, 2, 21, 19, 25, 0, 0⟩, account_id := "8551",
    transaction_type := "consumption", amount := ⟨300, 2⟩,
    counterparty := some { name := "测试商户", type := some "merchant" } }

/-- Sample record carrying an explicit balance of 100638.62. -/
def sampleTxBal : RawTransaction :=
  { raw_id := "raw-2", source_type := "cmb_email", source_account := "test@example.com",
    transaction_time := ⟨2026, 2, 21, 19, 25, 0, 0⟩, account_id := "8551",
    transaction_type := "consumption", amount := ⟨300, 2⟩,
    balance := some ⟨10063862, 2⟩,
    counterparty := some { name := "山月荟装扮", type := some "merchant" } }

/-- C1: saving a record whose fingerprint is not yet stored yields
`saved`; immediately saving it again yields `duplicate`, the stored
transaction count rises by exactly one across the pair, and the second
call leaves the store state completely unchanged. -/
theorem C1_save_twice (s : DBState) (t : RawTransaction)
    (h : containsTid s (generate_transaction_id t) = false) :
    (save_transaction s t).1 = (true, "saved") ∧
    (save_transaction (save_transaction s t).2 t).1 = (false, "duplicate") ∧
    (save_transaction s t).2.transactions.length = s.transactions.length + 1 ∧
    (save_transaction (save_transaction s t).2 t).2 = (save_transaction s t).2 := by
  have hdup := save_transaction_dup (save_transaction s t).2 t
    (save_transaction_contains s t h)
  refine ⟨by rw [save_transaction_not_dup s t h], by rw [hdup], ?_, by rw [hdup]⟩
  rw [save_transaction_transactions s t h]
  simp

/-- Witness for C1 at the repository's own regression-test record. -/
theorem C1_save_twice_witness :
    containsTid emptyDB (generate_transaction_id sampleTx) = false ∧
    ((save_transaction emptyDB sampleTx).1 = (true, "saved") ∧
     (save_transaction (save_transaction emptyDB sampleTx).2 sampleTx).1 = (false, "duplicate") ∧
     (save_transaction emptyDB sampleTx).2.transactions.length =
       emptyDB.transactions.length + 1 ∧
     (save_transaction (save_transaction emptyDB sampleTx).2 sampleTx).2 =
       (save_transaction emptyDB sampleTx).2) :=
  ⟨rfl, C1_save_twice emptyDB sampleTx rfl⟩
/-- Adding the delta `0 - b` is exactly subtraction of `b` (as `Decimal`
arithmetic). -/
theorem Dec.add_zero_sub (a b : Dec) : a.add (Dec.zero.sub b) = a.sub b := by
  unfold Dec.add Dec.sub Dec.zero
  simp only [Nat.zero_max, Nat.sub_self, pow_zero, mul_one, zero_mul, zero_sub, Dec.mk.injEq]
  exact ⟨by ring, trivial⟩

/-- The balance visible just before `_sync_current_balance` runs equals
the balance stored before the whole save began. -/
theorem cb_pre_sync (s : DBState) (t : RawTransaction) (id' : String) :
    currentBalanceOf
      (update_account_last_sync_time
        ⟨(_ensure_account s.accounts t.account_id t.account_name t.account_type).1,
          s.transactions ++
            [{ _transaction_to_db_dict t (generate_transaction_id t) with
                account_pk :=
                  (_ensure_account s.accounts t.account_id t.account_name t.account_type).2 }]⟩
        t.account_id t.transaction_time t.account_name t.account_type)
      id' = currentBalanceOf s id' := by
  rw [cb_update_lst]
  show (findAccount (_ensure_account s.accounts t.account_id t.account_name
    t.account_type).1 id').bind (·.current_balance) = _
  rw [cb_ensure]
  rfl

/-- C2: on a fresh save, an explicit `balanceAfter` replaces the stored
balance outright; otherwise debit-like types subtract the amount from the
prior stored balance (zero if previously unknown) and credit-like types
add it. -/
theorem C2_balance_reconciliation (s : DBState) (t : RawTransaction)
    (h : containsTid s (generate_transaction_id t) = false) :
    (∀ b, t.balance = some b →
      currentBalanceOf (save_transaction s t).2 t.account_id = some b) ∧
    (t.balance = none → t.transaction_type ∈ ["consumption", "transfer_out", "fee"] →
      currentBalanceOf (save_transaction s t).2 t.account_id =
        some (((currentBalanceOf s t.account_id).getD Dec.zero).sub t.amount)) ∧
    (t.balance = none →
      t.transaction_type ∈ ["income", "transfer_in", "refund", "interest", "dividend"] →
      currentBalanceOf (save_transaction s t).2 t.account_id =
        some (((currentBalanceOf s t.account_id).getD Dec.zero).add t.amount)) := by
  rw [save_transaction_not_dup s t h]
  have hpre := cb_pre_sync s t t.account_id
  refine ⟨?_, ?_, ?_⟩
  · intro b hb
    show currentBalanceOf (_sync_current_balance _ t) t.account_id = some b
    unfold _sync_current_balance
    rw [hb]
    exact cb_update_bal _ _ _ _ _
  · intro hb hty
    show currentBalanceOf (_sync_current_balance _ t) t.account_id = _
    unfold _sync_current_balance
    rw [hb]
    have hdelta : _infer_balance_delta t = some (Dec.zero.sub t.amount) := by
      unfold _infer_balance_delta
      rw [if_pos hty]
    rw [hdelta]
    rw [cb_update_bal]
    rw [show ∀ o : Option Dec, (match o with | some v => v | none => Dec.zero) = o.getD Dec.zero
      from fun o => by cases o <;> rfl]
    rw [show (findAccount _ t.account_id).bind (·.current_balance) =
      currentBalanceOf s t.account_id from hpre]
    rw [Dec.add_zero_sub]
  · intro hb hty
    show currentBalanceOf (_sync_current_balance _ t) t.account_id = _
    unfold _sync_current_balance
    rw [hb]
    have hne : ¬ t.transaction_type ∈ ["consumption", "transfer_out", "fee"] := by
      intro hmem
      simp only [List.mem_cons] at hmem hty
      rcases hmem with h1 | h1 | h1 | h1 <;> rcases hty with h2 | h2 | h2 | h2 | h2 | h2 <;>
        first
          | exact absurd h1 (List.not_mem_nil _)
          | exact absurd h2 (List.not_mem_nil _)
          | (rw [h1] at h2; exact absurd h2 (by decide))
    have hdelta : _infer_balance_delta t = some t.amount := by
      unfold _infer_balance_delta
      rw [if_neg hne, if_pos hty]
    rw [hdelta]
    rw [cb_update_bal]
    rw [show ∀ o : Option Dec, (match o with | some v => v | none => Dec.zero) = o.getD Dec.zero
      from fun o => by cases o <;> rfl]
    rw [show (findAccount _ t.account_id).bind (·.current_balance) =
      currentBalanceOf s t.account_id from hpre]

/-- Witness for C2: the explicit-balance record overwrites the balance,
and the repository-test consumption record drives it to -3.00. -/
theorem C2_balance_reconciliation_witness :
    (containsTid emptyDB (generate_transaction_id sampleTxBal) = false ∧
      sampleTxBal.balance = some ⟨10063862, 2⟩ ∧
      currentBalanceOf (save_transaction emptyDB sampleTxBal).2 "8551" =
        some ⟨10063862, 2⟩) ∧
    (containsTid emptyDB (generate_transaction_id sampleTx) = false ∧
      sampleTx.balance = none ∧
      currentBalanceOf (save_transaction emptyDB sampleTx).2 "8551" = some ⟨-300, 2⟩) :=
  ⟨⟨rfl, rfl, (C2_balance_reconciliation emptyDB sampleTxBal rfl).1 _ rfl⟩,
   ⟨rfl, rfl, by
      have := (C2_balance_reconciliation emptyDB sampleTx rfl).2.1 rfl (by decide)
      simpa using this⟩⟩
/-- Sample record with a transaction type outside both delta sets. -/
def sampleTxOther : RawTransaction :=
  { raw_id := "raw-3", source_type := "cmb_email", source_account := "test@example.com",
    transaction_time := ⟨2026, 3, 1, 8, 0, 0, 0⟩, account_id := "8551",
    transaction_type := "other", amount := ⟨500, 2⟩ }

/-- C10: a fresh record with a type outside both the debit-like and
credit-like sets and with no explicit balance is still inserted and still
drives the last-sync advance, but the owning account's stored balance is
left completely unchanged. -/
theorem C10_other_type_frame (s : DBState) (t : RawTransaction)
    (h : containsTid s (generate_transaction_id t) = false)
    (hb : t.balance = none)
    (h1 : t.transaction_type ∉ ["consumption", "transfer_out", "fee"])
    (h2 : t.transaction_type ∉ ["income", "transfer_in", "refund", "interest", "dividend"]) :
    (save_transaction s t).1 = (true, "saved") ∧
    (save_transaction s t).2.transactions.length = s.transactions.length + 1 ∧
    get_last_sync_time (save_transaction s t).2 t.account_id =
      some (match get_last_sync_time s t.account_id with
            | none => t.transaction_time
            | some old => if dtLtStore old t.transaction_time then t.transaction_time
                          else old) ∧
    currentBalanceOf (save_transaction s t).2 t.account_id =
      currentBalanceOf s t.account_id := by
  have hdelta : _infer_balance_delta t = none := by
    unfold _infer_balance_delta
    rw [if_neg h1, if_neg h2]
  have hlen : (save_transaction s t).2.transactions.length = s.transactions.length + 1 := by
    rw [save_transaction_transactions s t h]
    simp
  refine ⟨by rw [save_transaction_not_dup s t h], hlen, ?_, ?_⟩
  · rw [save_transaction_not_dup s t h]
    show get_last_sync_time (_sync_current_balance _ t) t.account_id = _
    rw [lst_sync_balance, lst_update_lst]
    have : get_last_sync_time
        (⟨(_ensure_account s.accounts t.account_id t.account_name t.account_type).1,
          s.transactions ++
            [{ _transaction_to_db_dict t (generate_transaction_id t) with
                account_pk := (_ensure_account s.accounts t.account_id t.account_name
                  t.account_type).2 }]⟩ : DBState) t.account_id =
        get_last_sync_time s t.account_id := by
      show (findAccount (_ensure_account s.accounts t.account_id t.account_name
        t.account_type).1 t.account_id).bind (·.last_sync_time) = _
      rw [lst_ensure]
      rfl
    rw [this]
  · rw [save_transaction_not_dup s t h]
    show currentBalanceOf (_sync_current_balance _ t) t.account_id = _
    unfold _sync_current_balance
    rw [hb, hdelta]
    exact cb_pre_sync s t t.account_id

/-- Witness for C10 at a record of type `other`. -/
theorem C10_other_type_frame_witness :
    (containsTid emptyDB (generate_transaction_id sampleTxOther) = false ∧
     sampleTxOther.balance = none ∧
     sampleTxOther.transaction_type ∉ ["consumption", "transfer_out", "fee"] ∧
     sampleTxOther.transaction_type ∉
       ["income", "transfer_in", "refund", "interest", "dividend"]) ∧
    (save_transaction emptyDB sampleTxOther).1 = (true, "saved") ∧
    currentBalanceOf (save_transaction emptyDB sampleTxOther).2 "8551" =
      currentBalanceOf emptyDB "8551" :=
  ⟨⟨rfl, rfl, by decide, by decide⟩,
   (C10_other_type_frame emptyDB sampleTxOther rfl rfl (by decide) (by decide)).1,
   (C10_other_type_frame emptyDB sampleTxOther rfl rfl (by decide) (by decide)).2.2.2⟩
/-- The account exists after `_ensure_account`. -/
theorem findAccount_ensure_isSome (accts : List AccountRow) (id : String)
    (n ty : Option String) :
    (findAccount (_ensure_account accts id n ty).1 id).isSome = true := by
  unfold _ensure_account updateAccountCoalesce
  rw [findAccount_map_keyPres _ _ _ (fun a => by split <;> rfl)]
  cases hf : findAccount (insertOrIgnoreAccount accts id n ty) id with
  | none =>
    have hs := findAccount_insertOrIgnore_isSome accts id n ty
    rw [hf] at hs
    exact hs
  | some a => rfl

/-- With no injected failure the faulted model coincides with
`save_transaction`. -/
theorem save_fault_none_eq (s : DBState) (t : RawTransaction) :
    save_transaction_fault none s t = save_transaction s t := by
  unfold save_transaction_fault save_transaction
  cases hc : containsTid s (generate_transaction_id t) <;> simp

/-- Reduction of the balance-step failure path. -/
theorem save_fault_balance_eq (s : DBState) (t : RawTransaction)
    (h : containsTid s (generate_transaction_id t) = false) :
    save_transaction_fault (some FailStep.balance) s t =
      ((false, "error"),
        update_account_last_sync_time
          ⟨(_ensure_account s.accounts t.account_id t.account_name t.account_type).1,
            s.transactions ++
              [{ _transaction_to_db_dict t (generate_transaction_id t) with
                  account_pk := (_ensure_account s.accounts t.account_id t.account_name
                    t.account_type).2 }]⟩
          t.account_id t.transaction_time t.account_name t.account_type) := by
  unfold save_transaction_fault
  simp only [h, Bool.false_eq_true, if_false]
  simp

/-- Reduction of the insert-step failure path. -/
theorem save_fault_insert_eq (s : DBState) (t : RawTransaction)
    (h : containsTid s (generate_transaction_id t) = false) :
    save_transaction_fault (some FailStep.insert) s t =
      ((false, "error"),
        { s with accounts :=
            (_ensure_account s.accounts t.account_id t.account_name t.account_type).1 }) := by
  unfold save_transaction_fault
  simp only [h, Bool.false_eq_true, if_false]
  simp

/-- Reduction of the ensure-step failure path. -/
theorem save_fault_ensure_eq (s : DBState) (t : RawTransaction)
    (h : containsTid s (generate_transaction_id t) = false) :
    save_transaction_fault (some FailStep.ensure) s t = ((false, "error"), s) := by
  unfold save_transaction_fault
  simp only [h, Bool.false_eq_true, if_false]
  simp

/-- C3 (amended): only the duplicate-check plus row insert of
`save_transaction` is atomic.  The account-ensure step commits before the
insert, and the last-sync advance and balance reconciliation each commit
after it, so: a failure in the balance step leaves the fingerprint stored
without the balance effect; a failure at the insert leaves the ensured
account behind without the record; a failure in the ensure step leaves
the store unchanged; and with no failure the faulted model coincides with
`save_transaction`. -/
theorem C3_commit_structure (s : DBState) (t : RawTransaction)
    (h : containsTid s (generate_transaction_id t) = false) :
    save_transaction_fault none s t = save_transaction s t ∧
    (containsTid (save_transaction_fault (some FailStep.balance) s t).2
        (generate_transaction_id t) = true ∧
      currentBalanceOf (save_transaction_fault (some FailStep.balance) s t).2 t.account_id =
        currentBalanceOf s t.account_id ∧
      (save_transaction_fault (some FailStep.balance) s t).1 = (false, "error")) ∧
    ((save_transaction_fault (some FailStep.insert) s t).2.transactions = s.transactions ∧
      (findAccount (save_transaction_fault (some FailStep.insert) s t).2.accounts
          t.account_id).isSome = true) ∧
    (save_transaction_fault (some FailStep.ensure) s t).2 = s := by
  refine ⟨save_fault_none_eq s t, ⟨?_, ?_, ?_⟩, ⟨?_, ?_⟩, ?_⟩
  · rw [save_fault_balance_eq s t h]
    unfold containsTid
    rw [show (((false, "error"),
        update_account_last_sync_time _ t.account_id t.transaction_time t.account_name
          t.account_type) : (Bool × String) × DBState).2 = _ from rfl,
      update_lst_transactions]
    simp only [List.any_eq_true, beq_iff_eq]
    exact ⟨_, List.mem_append_right _ (List.mem_singleton_self _), tx_dict_transaction_id t _⟩
  · rw [save_fault_balance_eq s t h]
    exact cb_pre_sync s t t.account_id
  · rw [save_fault_balance_eq s t h]
  · rw [save_fault_insert_eq s t h]
  · rw [save_fault_insert_eq s t h]
    exact findAccount_ensure_isSome s.accounts t.account_id t.account_name t.account_type
  · rw [save_fault_ensure_eq s t h]

/-- Witness for the amended C3 at a concrete record and the empty store. -/
theorem C3_commit_structure_witness :
    containsTid emptyDB (generate_transaction_id sampleTxBal) = false ∧
    containsTid (save_transaction_fault (some FailStep.balance) emptyDB sampleTxBal).2
        (generate_transaction_id sampleTxBal) = true ∧
    currentBalanceOf (save_transaction_fault (some FailStep.balance) emptyDB sampleTxBal).2
        "8551" = currentBalanceOf emptyDB "8551" :=
  ⟨rfl, (C3_commit_structure emptyDB sampleTxBal rfl).2.1.1,
    (C3_commit_structure emptyDB sampleTxBal rfl).2.1.2.1⟩

/-- Counterexample to C3 as stated: with a failure injected in the
balance-reconciliation step, the saved fingerprint is present in the
`transactions` table while the record's explicit balance was never
applied to the account, and the call reports an error. -/
theorem C3_counterexample :
    containsTid (save_transaction_fault (some FailStep.balance) emptyDB sampleTxBal).2
        (generate_transaction_id sampleTxBal) = true ∧
    sampleTxBal.balance = some ⟨10063862, 2⟩ ∧
    currentBalanceOf (save_transaction_fault (some FailStep.balance) emptyDB sampleTxBal).2
        "8551" = none ∧
    (save_transaction_fault (some FailStep.balance) emptyDB sampleTxBal).1 =
      (false, "error") := by
  refine ⟨?_, rfl, ?_, ?_⟩ <;> rfl
/-! ## ISO-8601 TEXT order versus chronological order -/

/-- Code point of a decimal digit character. -/
theorem digitChar_toNat (i : Nat) (h : i < 10) : (digitChar i).toNat = 48 + i := by
  interval_cases i <;> rfl

/-- One comparison step of `memcmpLt`. -/
theorem memcmpLt_cons (a b : Char) (xs ys : List Char) :
    memcmpLt (a :: xs) (b :: ys) =
      if a.toNat < b.toNat then true
      else if b.toNat < a.toNat then false
      else memcmpLt xs ys := rfl

/-- Equal leading characters are skipped by `memcmpLt`. -/
theorem memcmpLt_cons_self (c : Char) (xs ys : List Char) :
    memcmpLt (c :: xs) (c :: ys) = memcmpLt xs ys := by
  rw [memcmpLt_cons]
  simp

/-- Comparing two-digit zero-padded fields compares their values. -/
theorem memcmpLt_pad2 (m n : Nat) (xs ys : List Char) (hm : m < 100) (hn : n < 100) :
    memcmpLt (pad2 m ++ xs) (pad2 n ++ ys) =
      (if m < n then true else if n < m then false else memcmpLt xs ys) := by
  unfold pad2
  simp only [List.cons_append, List.nil_append]
  rw [memcmpLt_cons]
  rw [digitChar_toNat _ (by omega), digitChar_toNat _ (by omega)]
  by_cases h1 : m / 10 < n / 10
  · rw [if_pos (by omega), if_pos (by omega)]
  · rw [if_neg (by omega)]
    by_cases h2 : n / 10 < m / 10
    · rw [if_pos (by omega), if_neg (by omega), if_pos (by omega)]
    · rw [if_neg (by omega), memcmpLt_cons]
      rw [digitChar_toNat _ (by omega), digitChar_toNat _ (by omega)]
      by_cases h3 : m % 10 < n % 10
      · rw [if_pos (by omega), if_pos (by omega)]
      · rw [if_neg (by omega)]
        by_cases h4 : n % 10 < m % 10
        · rw [if_pos (by omega), if_neg (by omega), if_pos (by omega)]
        · rw [if_neg (by omega), if_neg (by omega), if_neg (by omega)]

/-- A four-digit field is two two-digit fields. -/
theorem pad4_eq (n : Nat) : pad4 n = pad2 (n / 100) ++ pad2 (n % 100) := by
  unfold pad4 pad2
  have h1 : n / 100 / 10 = n / 1000 := by omega
  have h3 : n % 100 / 10 = n / 10 % 10 := by omega
  have h4 : n % 100 % 10 = n % 10 := by omega
  rw [h1, h3, h4]
  simp

/-- A six-digit field is three two-digit fields. -/
theorem pad6_eq (n : Nat) : pad6 n = pad2 (n / 10000) ++ (pad2 (n / 100 % 100) ++ pad2 (n % 100)) := by
  unfold pad6 pad2
  have h1 : n / 10000 / 10 = n / 100000 := by omega
  have h2 : n / 100 % 100 / 10 = n / 1000 % 10 := by omega
  have h3 : n / 100 % 100 % 10 = n / 100 % 10 := by omega
  have h4 : n % 100 / 10 = n / 10 % 10 := by omega
  have h5 : n % 100 % 10 = n % 10 := by omega
  simp only [List.cons_append, List.nil_append]
  rw [h1, h2, h3, h4, h5]

set_option maxHeartbeats 2000000 in
/-- The optional microsecond suffix compares like the microsecond value. -/
theorem memcmpLt_micro (ma mb : Nat) (hma : ma ≤ 999999) (hmb : mb ≤ 999999) :
    memcmpLt (if ma = 0 then [] else '.' :: (pad6 ma ++ []))
        (if mb = 0 then [] else '.' :: (pad6 mb ++ [])) =
      decide (ma < mb) := by
  by_cases h1 : ma = 0 <;> by_cases h2 : mb = 0
  · subst h1; subst h2
    rfl
  · subst h1
    rw [if_pos rfl, if_neg h2]
    show true = _
    have : 0 < mb := Nat.pos_of_ne_zero h2
    simp [this]
  · subst h2
    rw [if_neg h1, if_pos rfl]
    show false = _
    simp
  · rw [if_neg h1, if_neg h2, memcmpLt_cons_self, pad6_eq, pad6_eq]
    simp only [List.append_assoc]
    rw [memcmpLt_pad2 _ _ _ _ (by omega) (by omega),
        memcmpLt_pad2 _ _ _ _ (by omega) (by omega),
        memcmpLt_pad2 _ _ _ _ (by omega) (by omega)]
    show _ = decide (ma < mb)
    split_ifs <;>
      (rw [eq_comm]; simp only [memcmpLt, decide_eq_true_eq, decide_eq_false_iff_not]; omega)

/-- `daysInMonth` is at most 31. -/
theorem daysInMonth_le (y m : Nat) : daysInMonth y m ≤ 31 := by
  unfold daysInMonth
  split
  · split <;> omega
  · split <;> omega

/-- Chained two-way comparison of numeric fields, as produced by the
`memcmpLt` field lemmas. -/
def cmpChain : List (Nat × Nat) → Bool → Bool
  | [], tail => tail
  | (x, y) :: rest, tail =>
    if x < y then true else if y < x then false else cmpChain rest tail

/-- Propositional reading of `cmpChain`. -/
def lexLtP : List (Nat × Nat) → Prop → Prop
  | [], tailP => tailP
  | (x, y) :: rest, tailP => x < y ∨ (x = y ∧ lexLtP rest tailP)

/-- `cmpChain` decides its propositional reading. -/
theorem cmpChain_iff (l : List (Nat × Nat)) (tail : Bool) :
    cmpChain l tail = true ↔ lexLtP l (tail = true) := by
  induction l with
  | nil => exact Iff.rfl
  | cons p rest ih =>
    obtain ⟨x, y⟩ := p
    simp only [cmpChain, lexLtP]
    by_cases h1 : x < y
    · simp [h1]
    · by_cases h2 : y < x
      · have : ¬ x = y := by omega
        simp [h1, h2, this]
      · have hxy : x = y := by omega
        simp [h1, h2, hxy, ih]

set_option maxHeartbeats 2000000 in
/-- The SQLite TEXT comparison of two stored ISO-8601 timestamps decides
exactly the chronological order, for valid datetimes. -/
theorem dtLtStore_iff_key (a b : PyDateTime) (ha : ValidDT a) (hb : ValidDT b) :
    dtLtStore a b = true ↔ dtKey a < dtKey b := by
  obtain ⟨ha1, ha2, ha3, ha4, ha5, ha6, ha7, ha8, ha9, ha10⟩ := ha
  obtain ⟨hb1, hb2, hb3, hb4, hb5, hb6, hb7, hb8, hb9, hb10⟩ := hb
  have hda : a.day ≤ 31 := le_trans ha6 (daysInMonth_le _ _)
  have hdb : b.day ≤ 31 := le_trans hb6 (daysInMonth_le _ _)
  unfold dtLtStore isoChars
  rw [pad4_eq, pad4_eq]
  have hmic : ∀ t : PyDateTime,
      (if t.micro = 0 then ([] : List Char) else '.' :: pad6 t.micro) =
        (if t.micro = 0 then [] else '.' :: (pad6 t.micro ++ [])) :=
    fun t => by split <;> simp
  rw [hmic a, hmic b]
  simp only [List.append_assoc, List.cons_append]
  rw [memcmpLt_pad2 _ _ _ _ (by omega) (by omega),
      memcmpLt_pad2 _ _ _ _ (by omega) (by omega)]
  rw [memcmpLt_cons_self]
  rw [memcmpLt_pad2 _ _ _ _ (by omega) (by omega)]
  rw [memcmpLt_cons_self]
  rw [memcmpLt_pad2 _ _ _ _ (by omega) (by omega)]
  rw [memcmpLt_cons_self]
  rw [memcmpLt_pad2 _ _ _ _ (by omega) (by omega)]
  rw [memcmpLt_cons_self]
  rw [memcmpLt_pad2 _ _ _ _ (by omega) (by omega)]
  rw [memcmpLt_cons_self]
  rw [memcmpLt_pad2 _ _ _ _ (by omega) (by omega)]
  rw [memcmpLt_micro _ _ ha10 hb10]
  show cmpChain [(a.year / 100, b.year / 100), (a.year % 100, b.year % 100),
      (a.month, b.month), (a.day, b.day), (a.hour, b.hour), (a.minute, b.minute),
      (a.second, b.second)] (decide (a.micro < b.micro)) = true ↔ dtKey a < dtKey b
  rw [cmpChain_iff]
  simp only [lexLtP, decide_eq_true_eq]
  unfold dtKey
  omega
/-- Chronologically later of two datetimes. -/
def dtMaxChron (a b : PyDateTime) : PyDateTime := if dtKey a < dtKey b then b else a

/-- The last-sync time visible just before `update_account_last_sync_time`
runs equals the one stored before the whole save began. -/
theorem lst_state_s1 (s : DBState) (t : RawTransaction) (id' : String) :
    get_last_sync_time
      ⟨(_ensure_account s.accounts t.account_id t.account_name t.account_type).1,
        s.transactions ++
          [{ _transaction_to_db_dict t (generate_transaction_id t) with
              account_pk := (_ensure_account s.accounts t.account_id t.account_name
                t.account_type).2 }]⟩ id' = get_last_sync_time s id' := by
  show (findAccount (_ensure_account s.accounts t.account_id t.account_name
    t.account_type).1 id').bind (·.last_sync_time) = _
  rw [lst_ensure]
  rfl

/-- C7: a fresh save sets the owning account's `last_sync_time` to the
chronological maximum of the stored value and the record's transaction
time (the record time itself if none was stored), and no
`save_transaction` call ever moves a stored `last_sync_time` backwards. -/
theorem C7_last_sync_max_monotone (s : DBState) (t : RawTransaction)
    (hv : ValidDT t.transaction_time)
    (hvs : ∀ old, get_last_sync_time s t.account_id = some old → ValidDT old) :
    (containsTid s (generate_transaction_id t) = false →
      get_last_sync_time (save_transaction s t).2 t.account_id =
        some (match get_last_sync_time s t.account_id with
              | none => t.transaction_time
              | some old => dtMaxChron old t.transaction_time)) ∧
    (∀ old, get_last_sync_time s t.account_id = some old →
      ∃ new, get_last_sync_time (save_transaction s t).2 t.account_id = some new ∧
        dtKey old ≤ dtKey new) := by
  constructor
  · intro h
    rw [save_transaction_not_dup s t h]
    show get_last_sync_time (_sync_current_balance _ t) t.account_id = _
    rw [lst_sync_balance, lst_update_lst, lst_state_s1]
    cases hold : get_last_sync_time s t.account_id with
    | none => rfl
    | some old =>
      have hbridge := dtLtStore_iff_key old t.transaction_time (hvs old hold) hv
      unfold dtMaxChron
      by_cases hk : dtKey old < dtKey t.transaction_time
      · show some (if dtLtStore old t.transaction_time then t.transaction_time else old) =
          some (if dtKey old < dtKey t.transaction_time then t.transaction_time else old)
        rw [if_pos (hbridge.mpr hk), if_pos hk]
      · show some (if dtLtStore old t.transaction_time then t.transaction_time else old) =
          some (if dtKey old < dtKey t.transaction_time then t.transaction_time else old)
        rw [if_neg (fun hc => hk (hbridge.mp hc)), if_neg hk]
  · intro old hold
    cases hc : containsTid s (generate_transaction_id t) with
    | true =>
      rw [save_transaction_dup s t hc]
      exact ⟨old, hold, le_refl _⟩
    | false =>
      rw [save_transaction_not_dup s t hc]
      show ∃ new, get_last_sync_time (_sync_current_balance _ t) t.account_id = some new ∧ _
      rw [lst_sync_balance, lst_update_lst, lst_state_s1, hold]
      by_cases hk : dtKey old < dtKey t.transaction_time
      · refine ⟨t.transaction_time, ?_, by omega⟩
        show some (if dtLtStore old t.transaction_time then t.transaction_time else old) = _
        rw [if_pos ((dtLtStore_iff_key old _ (hvs old hold) hv).mpr hk)]
      · refine ⟨old, ?_, le_refl _⟩
        show some (if dtLtStore old t.transaction_time then t.transaction_time else old) = _
        rw [if_neg (fun hc2 => hk ((dtLtStore_iff_key old _ (hvs old hold) hv).mp hc2))]

/-- Witness for C7: saving the sample record into the empty store sets the
account's last-sync time to the record's transaction time. -/
theorem C7_last_sync_max_monotone_witness :
    ValidDT sampleTx.transaction_time ∧
    get_last_sync_time (save_transaction emptyDB sampleTx).2 "8551" =
      some sampleTx.transaction_time :=
  ⟨by decide,
    (C7_last_sync_max_monotone emptyDB sampleTx (by decide) (fun old h => nomatch h)).1 rfl⟩
/-! ## Fingerprint injectivity machinery (C4) -/

/-- `charsVal` of a snoc. -/
theorem charsVal_snoc (xs : List Char) (c : Char) :
    charsVal (xs ++ [c]) = 10 * charsVal xs + (c.toNat - 48) := by
  unfold charsVal
  rw [List.foldl_append]
  rfl

/-- `natCharsAux` decodes back to its input. -/
theorem charsVal_natCharsAux (fuel n : Nat) (h : n ≤ fuel) :
    charsVal (natCharsAux fuel n) = n := by
  induction fuel generalizing n with
  | zero =>
    interval_cases n
    rfl
  | succ fuel ih =>
    unfold natCharsAux
    by_cases hn : n = 0
    · simp [hn, charsVal]
    · rw [if_neg hn, charsVal_snoc, ih (n / 10) (by omega),
        digitChar_toNat (n % 10) (by omega)]
      omega

/-- `natChars` decodes back to its input. -/
theorem charsVal_natChars (n : Nat) : charsVal (natChars n) = n := by
  unfold natChars
  by_cases hn : n = 0
  · simp [hn, charsVal]
  · rw [if_neg hn, charsVal_natCharsAux n n (le_refl n)]

/-- `natChars` is injective. -/
theorem natChars_inj {m n : Nat} (h : natChars m = natChars n) : m = n := by
  have := charsVal_natChars m
  rw [h, charsVal_natChars] at this
  omega

/-- Every character of `natCharsAux` is a decimal digit. -/
theorem natCharsAux_digits (fuel n : Nat) :
    ∀ c ∈ natCharsAux fuel n, 48 ≤ c.toNat ∧ c.toNat ≤ 57 := by
  induction fuel generalizing n with
  | zero => intro c hc; cases hc
  | succ fuel ih =>
    intro c hc
    unfold natCharsAux at hc
    by_cases hn : n = 0
    · rw [if_pos hn] at hc; cases hc
    · rw [if_neg hn] at hc
      rcases List.mem_append.mp hc with h1 | h1
      · exact ih _ c h1
      · rcases List.mem_singleton.mp h1 with rfl
        rw [digitChar_toNat _ (by omega)]
        omega

/-- Every character of `natChars` is a decimal digit. -/
theorem natChars_digits (n : Nat) : ∀ c ∈ natChars n, 48 ≤ c.toNat ∧ c.toNat ≤ 57 := by
  unfold natChars
  by_cases hn : n = 0
  · rw [if_pos hn]
    intro c hc
    rcases List.mem_singleton.mp hc with rfl
    exact ⟨by decide, by decide⟩
  · rw [if_neg hn]
    exact natCharsAux_digits n n

/-- `natChars` never contains a point. -/
theorem natChars_no_dot (n : Nat) : '.' ∉ natChars n := by
  intro h
  have := natChars_digits n '.' h
  revert this
  decide

/-- `natChars` never contains an `E`. -/
theorem natChars_no_e (n : Nat) : 'E' ∉ natChars n := by
  intro h
  have := natChars_digits n 'E' h
  revert this
  decide

/-- `natChars` is nonempty. -/
theorem natChars_ne_nil (n : Nat) : natChars n ≠ [] := by
  unfold natChars
  by_cases hn : n = 0
  · simp [hn]
  · rw [if_neg hn]
    cases n with
    | zero => exact absurd rfl hn
    | succ k =>
      simp only [natCharsAux]
      rw [if_neg hn]
      simp

/-- Zero characters in front do not change the decoded value. -/
theorem charsVal_replicate_zero (k : Nat) (ds : List Char) :
    charsVal (List.replicate k '0' ++ ds) = charsVal ds := by
  induction k with
  | zero => rfl
  | succ k ih =>
    rw [List.replicate_succ, List.cons_append]
    show charsVal (List.replicate k '0' ++ ds) = _
    exact ih
/-- Lowercase-hex alphabet test. -/
def isHexChar (c : Char) : Bool :=
  (48 ≤ c.toNat && c.toNat ≤ 57) || (97 ≤ c.toNat && c.toNat ≤ 102)

/-- `hexChar` lands in the hex alphabet. -/
theorem isHexChar_hexChar (n : Nat) (h : n < 16) : isHexChar (hexChar n) = true := by
  interval_cases n <;> decide

/-- Folding SHA-256 chunks preserves the eight-word state shape. -/
theorem foldl_sha256Chunk_length (cs : List (List Nat)) (hs : List Nat) (h : hs.length = 8) :
    (cs.foldl sha256Chunk hs).length = 8 := by
  induction cs generalizing hs with
  | nil => exact h
  | cons c cs ih => exact ih _ rfl

/-- The SHA-256 state always has eight words. -/
theorem sha256Words_length (msg : List Nat) : (sha256Words msg).length = 8 := by
  unfold sha256Words
  exact foldl_sha256Chunk_length _ sha256H0 rfl

/-- Flattening eight-character word renderings. -/
theorem hexdigest_length (hs : List Nat) : ((hs.map wordHex8).flatten).length = 8 * hs.length := by
  induction hs with
  | nil => rfl
  | cons w ws ih =>
    simp only [List.map_cons, List.flatten_cons, List.length_append, ih, List.length_cons]
    rw [show (wordHex8 w).length = 8 from rfl]
    ring

/-- The hex digest has 64 characters. -/
theorem sha256hex_length (s : String) : (sha256hex s).data.length = 64 := by
  unfold sha256hex
  show ((List.map wordHex8 (sha256Words (utf8Bytes s))).flatten).length = 64
  rw [hexdigest_length, sha256Words_length]

/-- Every character of the hex digest is a lowercase hex digit. -/
theorem sha256hex_hex (s : String) : ∀ c ∈ (sha256hex s).data, isHexChar c = true := by
  unfold sha256hex
  intro c hc
  have hc' : c ∈ (List.map wordHex8 (sha256Words (utf8Bytes s))).flatten := hc
  rcases List.mem_flatten.mp hc' with ⟨l, hl, hcl⟩
  rcases List.mem_map.mp hl with ⟨w, _, rfl⟩
  unfold wordHex8 at hcl
  simp only [List.mem_cons, List.mem_singleton] at hcl
  rcases hcl with rfl | rfl | rfl | rfl | rfl | rfl | rfl | rfl | h <;>
    first
      | exact isHexChar_hexChar _ (Nat.mod_lt _ (by omega))
      | cases h

/-- `memcmpLt` is irreflexive. -/
theorem memcmpLt_self (l : List Char) : memcmpLt l l = false := by
  induction l with
  | nil => rfl
  | cons c cs ih => rw [memcmpLt_cons_self]; exact ih

/-- The chronological key determines a valid datetime. -/
theorem dtKey_inj (a b : PyDateTime) (ha : ValidDT a) (hb : ValidDT b)
    (h : dtKey a = dtKey b) : a = b := by
  obtain ⟨ha1, ha2, ha3, ha4, ha5, ha6, ha7, ha8, ha9, ha10⟩ := ha
  obtain ⟨hb1, hb2, hb3, hb4, hb5, hb6, hb7, hb8, hb9, hb10⟩ := hb
  have hda : a.day ≤ 31 := le_trans ha6 (daysInMonth_le _ _)
  have hdb : b.day ≤ 31 := le_trans hb6 (daysInMonth_le _ _)
  unfold dtKey at h
  have he : a.year = b.year ∧ a.month = b.month ∧ a.day = b.day ∧ a.hour = b.hour ∧
      a.minute = b.minute ∧ a.second = b.second ∧ a.micro = b.micro := by omega
  obtain ⟨e1, e2, e3, e4, e5, e6, e7⟩ := he
  cases a
  cases b
  simp only [PyDateTime.mk.injEq]
  exact ⟨e1, e2, e3, e4, e5, e6, e7⟩

/-- `isoformat` is injective on valid datetimes. -/
theorem isoformat_inj (a b : PyDateTime) (ha : ValidDT a) (hb : ValidDT b)
    (h : isoformat a = isoformat b) : a = b := by
  have hch : isoChars a = isoChars b := congrArg String.data h
  by_contra hne
  have hk : dtKey a ≠ dtKey b := fun he => hne (dtKey_inj a b ha hb he)
  rcases Nat.lt_or_ge (dtKey a) (dtKey b) with hlt | hge
  · have hT := (dtLtStore_iff_key a b ha hb).mpr hlt
    unfold dtLtStore at hT
    rw [hch, memcmpLt_self] at hT
    exact Bool.false_ne_true hT
  · have hlt' : dtKey b < dtKey a := by omega
    have hT := (dtLtStore_iff_key b a hb ha).mpr hlt'
    unfold dtLtStore at hT
    rw [hch, memcmpLt_self] at hT
    exact Bool.false_ne_true hT
/-- `takeWhile` stops exactly at the first failing element. -/
theorem takeWhile_append_stop (p : Char → Bool) (xs : List Char) (y : Char) (ys : List Char)
    (hxs : ∀ c ∈ xs, p c = true) (hy : p y = false) :
    (xs ++ y :: ys).takeWhile p = xs := by
  induction xs with
  | nil => simp [List.takeWhile_cons, hy]
  | cons a as ih =>
    have ha := hxs a (List.mem_cons_self a as)
    simp only [List.cons_append, List.takeWhile_cons, ha, if_true]
    rw [ih (fun c hc => hxs c (List.mem_cons_of_mem a hc))]

/-- `dropWhile` drops exactly up to the first failing element. -/
theorem dropWhile_append_stop (p : Char → Bool) (xs : List Char) (y : Char) (ys : List Char)
    (hxs : ∀ c ∈ xs, p c = true) (hy : p y = false) :
    (xs ++ y :: ys).dropWhile p = y :: ys := by
  induction xs with
  | nil => simp [List.dropWhile_cons, hy]
  | cons a as ih =>
    have ha := hxs a (List.mem_cons_self a as)
    simp only [List.cons_append, List.dropWhile_cons, ha, if_true]
    exact ih (fun c hc => hxs c (List.mem_cons_of_mem a hc))

/-- A leading zero character does not change the decoded value. -/
theorem charsVal_cons_zero (xs : List Char) : charsVal ('0' :: xs) = charsVal xs := rfl

/-- Filtering the point out of a digit string is a no-op. -/
theorem filter_ne_dot_digits (ds : List Char) (h : ∀ c ∈ ds, 48 ≤ c.toNat ∧ c.toNat ≤ 57) :
    ds.filter (fun c => c != '.') = ds := by
  induction ds with
  | nil => rfl
  | cons a as ih =>
    have ha := h a (List.mem_cons_self a as)
    have hne : (a != '.') = true := by
      have : a ≠ '.' := fun he => by rw [he] at ha; exact absurd ha (by decide)
      simpa using this
    simp [List.filter_cons, hne, ih (fun c hc => h c (List.mem_cons_of_mem a hc))]

/-- Characters of a fixed-point rendering: digits and at most one point. -/
theorem natDecChars_chars (m e : Nat) :
    ∀ c ∈ natDecChars m e, c = '.' ∨ (48 ≤ c.toNat ∧ c.toNat ≤ 57) := by
  unfold natDecChars
  intro c hc
  by_cases he : e = 0
  · rw [if_pos he] at hc
    exact Or.inr (natChars_digits m c hc)
  · rw [if_neg he] at hc
    by_cases hlen : (natChars m).length ≤ e
    · rw [if_pos hlen] at hc
      rcases List.mem_cons.mp hc with rfl | hc2
      · exact Or.inr ⟨by decide, by decide⟩
      rcases List.mem_cons.mp hc2 with rfl | hc3
      · exact Or.inl rfl
      rcases List.mem_append.mp hc3 with h4 | h4
      · rw [List.eq_of_mem_replicate h4]
        exact Or.inr ⟨by decide, by decide⟩
      · exact Or.inr (natChars_digits m c h4)
    · rw [if_neg hlen] at hc
      rcases List.mem_append.mp hc with h4 | h4
      · exact Or.inr (natChars_digits m c (List.take_subset _ _ h4))
      rcases List.mem_cons.mp h4 with rfl | h5
      · exact Or.inl rfl
      · exact Or.inr (natChars_digits m c (List.drop_subset _ _ h5))

/-- Decoding a fixed-point rendering: the digits decode to the
coefficient, and the point position determines the scale. -/
theorem decode_natDecChars (m e : Nat) :
    charsVal ((natDecChars m e).filter (fun c => c != '.')) = m ∧
    (e ≠ 0 → '.' ∈ natDecChars m e) ∧
    (e = 0 → '.' ∉ natDecChars m e) ∧
    (e ≠ 0 → ((natDecChars m e).reverse.takeWhile (fun c => c != '.')).length = e) := by
  have hdig := natChars_digits m
  have hone : ∀ c ∈ natChars m, (fun c => c != '.') c = true := by
    intro c hc
    have := hdig c hc
    have : c ≠ '.' := fun he => by rw [he] at this; exact absurd this (by decide)
    simpa using this
  unfold natDecChars
  by_cases he : e = 0
  · rw [if_pos he]
    refine ⟨?_, fun h => absurd he h, fun _ => natChars_no_dot m, fun h => absurd he h⟩
    rw [filter_ne_dot_digits _ hdig, charsVal_natChars]
  · rw [if_neg he]
    by_cases hlen : (natChars m).length ≤ e
    · rw [if_pos hlen]
      have hX : ∀ c ∈ List.replicate (e - (natChars m).length) '0' ++ natChars m,
          48 ≤ c.toNat ∧ c.toNat ≤ 57 := by
        intro c hc
        rcases List.mem_append.mp hc with h4 | h4
        · rw [List.eq_of_mem_replicate h4]; exact ⟨by decide, by decide⟩
        · exact hdig c h4
      refine ⟨?_, fun _ => List.mem_cons_of_mem _ (List.mem_cons_self _ _), fun h => absurd h he, fun _ => ?_⟩
      · rw [List.filter_cons, List.filter_cons]
        simp only [show (('0' : Char) != '.') = true by decide, if_true,
          show (('.' : Char) != '.') = false by decide, Bool.false_eq_true, if_false]
        rw [filter_ne_dot_digits _ hX, charsVal_cons_zero, charsVal_replicate_zero,
          charsVal_natChars]
      · have hrev : ∀ c ∈ (List.replicate (e - (natChars m).length) '0' ++
            natChars m).reverse, (fun c => c != '.') c = true := by
          intro c hc
          rw [List.mem_reverse] at hc
          have := hX c hc
          have hcne : c ≠ '.' := fun hce => by rw [hce] at this; exact absurd this (by decide)
          simpa using hcne
        rw [List.reverse_cons, List.reverse_cons, List.append_assoc, List.singleton_append,
          takeWhile_append_stop _ _ '.' _ hrev (by decide)]
        simp
        omega
    · rw [if_neg hlen]
      refine ⟨?_, fun _ => List.mem_append_right _ (List.mem_cons_self _ _),
        fun h => absurd h he, fun _ => ?_⟩
      · rw [List.filter_append, List.filter_cons]
        simp only [show (('.' : Char) != '.') = false by decide, Bool.false_eq_true, if_false]
        rw [filter_ne_dot_digits _ (fun c hc => hdig c (List.take_subset _ _ hc)),
          filter_ne_dot_digits _ (fun c hc => hdig c (List.drop_subset _ _ hc)),
          List.take_append_drop, charsVal_natChars]
      · have hrev : ∀ c ∈ (List.drop ((natChars m).length - e) (natChars m)).reverse,
            (fun c => c != '.') c = true := by
          intro c hc
          rw [List.mem_reverse] at hc
          have := hdig c (List.drop_subset _ _ hc)
          have hcne : c ≠ '.' := fun hce => by rw [hce] at this; exact absurd this (by decide)
          simpa using hcne
        rw [List.reverse_append, List.reverse_cons, List.append_assoc, List.singleton_append,
          takeWhile_append_stop _ _ '.' _ hrev (by decide)]
        simp
        omega

/-- Fixed-point renderings are injective in coefficient and scale. -/
theorem natDecChars_inj (m1 e1 m2 e2 : Nat) (h : natDecChars m1 e1 = natDecChars m2 e2) :
    m1 = m2 ∧ e1 = e2 := by
  obtain ⟨d1m, d1in, d1out, d1len⟩ := decode_natDecChars m1 e1
  obtain ⟨d2m, d2in, d2out, d2len⟩ := decode_natDecChars m2 e2
  have hm : m1 = m2 := by rw [← d1m, ← d2m, h]
  refine ⟨hm, ?_⟩
  by_cases h1 : e1 = 0 <;> by_cases h2 : e2 = 0
  · omega
  · exact absurd (h ▸ d2in h2) (d1out h1)
  · exact absurd (h ▸ d1in h1) (d2out h2)
  · rw [← d1len h1, ← d2len h2, h]
/-- Decomposing a scientific rendering at its `E`. -/
theorem sciChars_decomp (m e : Nat) :
    ((sciChars m e).takeWhile (fun c => c != 'E')).filter (fun c => c != '.') = natChars m ∧
    (sciChars m e).dropWhile (fun c => c != 'E') =
      'E' :: '-' :: natChars (e - ((natChars m).length - 1)) := by
  cases hds : natChars m with
  | nil => exact absurd hds (natChars_ne_nil m)
  | cons d rest =>
    have hdigits := natChars_digits m
    rw [hds] at hdigits
    have hd := hdigits d (List.mem_cons_self _ _)
    have hrest : ∀ c ∈ rest, 48 ≤ c.toNat ∧ c.toNat ≤ 57 :=
      fun c hc => hdigits c (List.mem_cons_of_mem _ hc)
    have hlen : (natChars m).length - 1 = rest.length := by rw [hds]; simp
    have hmantle : ∀ c ∈ (if rest.isEmpty then [d] else d :: '.' :: rest),
        (fun c => c != 'E') c = true := by
      intro c hc
      have hcd : c = '.' ∨ (48 ≤ c.toNat ∧ c.toNat ≤ 57) := by
        by_cases hr : rest.isEmpty
        · rw [if_pos hr] at hc
          rcases List.mem_singleton.mp hc with rfl
          exact Or.inr hd
        · rw [if_neg hr] at hc
          rcases List.mem_cons.mp hc with rfl | hc2
          · exact Or.inr hd
          rcases List.mem_cons.mp hc2 with rfl | hc3
          · exact Or.inl rfl
          · exact Or.inr (hrest c hc3)
      have : c ≠ 'E' := by
        rcases hcd with rfl | hr
        · decide
        · exact fun hce => by rw [hce] at hr; exact absurd hr (by decide)
      simpa using this
    unfold sciChars
    rw [hds]
    dsimp only
    simp only [List.length_cons, Nat.add_sub_cancel]
    constructor
    · rw [takeWhile_append_stop _ _ 'E' _ hmantle (by decide)]
      by_cases hr : rest.isEmpty
      · rw [if_pos hr, List.filter_cons]
        have : (d != '.') = true := by
          have : d ≠ '.' := fun hce => by rw [hce] at hd; exact absurd hd (by decide)
          simpa using this
        rw [List.isEmpty_iff] at hr
        simp [this, hr]
      · rw [if_neg hr, List.filter_cons, List.filter_cons]
        have hdne : (d != '.') = true := by
          have : d ≠ '.' := fun hce => by rw [hce] at hd; exact absurd hd (by decide)
          simpa using this
        simp only [hdne, if_true, show (('.' : Char) != '.') = false by decide,
          Bool.false_eq_true, if_false]
        rw [filter_ne_dot_digits _ hrest]
    · rw [dropWhile_append_stop _ _ 'E' _ hmantle (by decide)]

/-- Scientific renderings are injective given the regime bound. -/
theorem sciChars_inj (m1 e1 m2 e2 : Nat)
    (h1 : (natChars m1).length + 6 ≤ e1) (h2 : (natChars m2).length + 6 ≤ e2)
    (h : sciChars m1 e1 = sciChars m2 e2) : m1 = m2 ∧ e1 = e2 := by
  obtain ⟨t1, d1⟩ := sciChars_decomp m1 e1
  obtain ⟨t2, d2⟩ := sciChars_decomp m2 e2
  have hm : natChars m1 = natChars m2 := by rw [← t1, ← t2, h]
  have hdrop : ('E' :: '-' :: natChars (e1 - ((natChars m1).length - 1))) =
      'E' :: '-' :: natChars (e2 - ((natChars m2).length - 1)) := by
    rw [← d1, ← d2, h]
  have hexp : e1 - ((natChars m1).length - 1) = e2 - ((natChars m2).length - 1) := by
    have h2 := hdrop
    injection h2 with ha hb
    injection hb with hc hd
    exact natChars_inj hd
  have hlen : (natChars m1).length = (natChars m2).length := by rw [hm]
  exact ⟨natChars_inj hm, by omega⟩

/-- `E` never occurs in a fixed-point rendering. -/
theorem e_not_mem_natDecChars (m e : Nat) : 'E' ∉ natDecChars m e := by
  intro h
  rcases natDecChars_chars m e 'E' h with h1 | h1
  · exact absurd h1 (by decide)
  · exact absurd h1 (by decide)

/-- `E` always occurs in a scientific rendering. -/
theorem e_mem_sciChars (m e : Nat) : 'E' ∈ sciChars m e := by
  cases hds : natChars m with
  | nil => exact absurd hds (natChars_ne_nil m)
  | cons d rest =>
    unfold sciChars
    rw [hds]
    exact List.mem_append_right _ (List.mem_cons_self _ _)

/-- The full `Decimal.__str__` magnitude rendering is injective. -/
theorem pyDecChars_inj (m1 e1 m2 e2 : Nat) (h : pyDecChars m1 e1 = pyDecChars m2 e2) :
    m1 = m2 ∧ e1 = e2 := by
  unfold pyDecChars at h
  by_cases r1 : e1 ≤ (natChars m1).length + 5 <;> by_cases r2 : e2 ≤ (natChars m2).length + 5
  · rw [if_pos r1, if_pos r2] at h
    exact natDecChars_inj _ _ _ _ h
  · rw [if_pos r1, if_neg r2] at h
    exact absurd (h ▸ e_mem_sciChars m2 e2) (e_not_mem_natDecChars m1 e1)
  · rw [if_neg r1, if_pos r2] at h
    exact absurd (h.symm ▸ e_mem_sciChars m1 e1) (e_not_mem_natDecChars m2 e2)
  · rw [if_neg r1, if_neg r2] at h
    exact sciChars_inj _ _ _ _ (by omega) (by omega) h

/-- A magnitude rendering starts with a digit (in particular, never with
a minus sign). -/
theorem pyDecChars_head_digit (m e : Nat) :
    ∃ c cs, pyDecChars m e = c :: cs ∧ 48 ≤ c.toNat ∧ c.toNat ≤ 57 := by
  unfold pyDecChars
  by_cases r : e ≤ (natChars m).length + 5
  · rw [if_pos r]
    unfold natDecChars
    by_cases he : e = 0
    · rw [if_pos he]
      cases hds : natChars m with
      | nil => exact absurd hds (natChars_ne_nil m)
      | cons d rest =>
        have := natChars_digits m d (hds ▸ List.mem_cons_self _ _)
        exact ⟨d, rest, rfl, this⟩
    · rw [if_neg he]
      by_cases hlen : (natChars m).length ≤ e
      · rw [if_pos hlen]
        exact ⟨'0', _, rfl, by decide, by decide⟩
      · rw [if_neg hlen]
        cases hds : natChars m with
        | nil => exact absurd hds (natChars_ne_nil m)
        | cons d rest =>
          have hd := natChars_digits m d (hds ▸ List.mem_cons_self _ _)
          have hpos : (d :: rest).length - e = ((d :: rest).length - e - 1) + 1 := by
            rw [hds] at hlen
            simp only [List.length_cons] at hlen ⊢
            omega
          rw [hpos, show ∀ (n : Nat) (l : List Char),
            List.take (n + 1) (d :: l) = d :: List.take n l from fun n l => rfl,
            List.cons_append]
          exact ⟨d, _, rfl, hd⟩
  · rw [if_neg r]
    cases hds : natChars m with
    | nil => exact absurd hds (natChars_ne_nil m)
    | cons d rest =>
      have hd := natChars_digits m d (hds ▸ List.mem_cons_self _ _)
      unfold sciChars
      rw [hds]
      dsimp only
      by_cases hr : rest.isEmpty
      · rw [if_pos hr, List.singleton_append]
        exact ⟨d, _, rfl, hd⟩
      · rw [if_neg hr, List.cons_append]
        exact ⟨d, _, rfl, hd⟩

/-- `str` on the `Dec` model is injective: distinct Python `Decimal`
representations render to distinct strings. -/
theorem decStr_inj (d1 d2 : Dec) (h : decStr d1 = decStr d2) : d1 = d2 := by
  unfold decStr at h
  by_cases s1 : d1.mant < 0 <;> by_cases s2 : d2.mant < 0
  · rw [if_pos s1, if_pos s2] at h
    have h' : '-' :: pyDecChars d1.mant.natAbs d1.exp =
        '-' :: pyDecChars d2.mant.natAbs d2.exp := congrArg String.data h
    have h'' : pyDecChars d1.mant.natAbs d1.exp = pyDecChars d2.mant.natAbs d2.exp := by
      injection h'
    obtain ⟨hm, he⟩ := pyDecChars_inj _ _ _ _ h''
    cases d1
    cases d2
    simp only [Dec.mk.injEq]
    simp only at s1 s2 hm he
    omega
  · rw [if_pos s1, if_neg s2] at h
    obtain ⟨c, cs, hcs, hc1, hc2⟩ := pyDecChars_head_digit d2.mant.toNat d2.exp
    have h' : '-' :: pyDecChars d1.mant.natAbs d1.exp = c :: cs := by
      have := congrArg String.data h
      rw [hcs] at this
      exact this
    have : '-' = c := by injection h'
    rw [← this] at hc1
    exact absurd hc1 (by decide)
  · rw [if_neg s1, if_pos s2] at h
    obtain ⟨c, cs, hcs, hc1, hc2⟩ := pyDecChars_head_digit d1.mant.toNat d1.exp
    have h' : c :: cs = '-' :: pyDecChars d2.mant.natAbs d2.exp := by
      have := congrArg String.data h
      rw [hcs] at this
      exact this
    have : c = '-' := by injection h'
    rw [this] at hc1
    exact absurd hc1 (by decide)
  · rw [if_neg s1, if_neg s2] at h
    have h'' : pyDecChars d1.mant.toNat d1.exp = pyDecChars d2.mant.toNat d2.exp :=
      congrArg String.data h
    obtain ⟨hm, he⟩ := pyDecChars_inj _ _ _ _ h''
    cases d1
    cases d2
    simp only [Dec.mk.injEq]
    simp only at s1 s2 hm he
    omega
/-- Length of a 16-character prefix of a 64-character string. -/
theorem take16_length (s : String) (h : s.data.length = 64) : (s.take 16).length = 16 := by
  rw [String.take_eq]
  show (s.data.take 16).length = 16
  rw [List.length_take, h]
  decide

/-- Characters of a prefix are characters of the string. -/
theorem mem_take16 (s : String) (c : Char) (hc : c ∈ (s.take 16).data) : c ∈ s.data := by
  rw [String.data_take] at hc
  exact List.take_subset _ _ hc

/-- Dropping a shared head character. -/
theorem consTail {c : Char} {x y : List Char} (h : c :: x = c :: y) : x = y := by
  injection h

/-- C4: the fingerprint is a function of exactly the six key inputs —
records agreeing on them get equal fingerprints whatever their other
fields; the fingerprint is the 64-hex-character SHA-256 digest truncated
to 16 characters; and changing any single one of the six inputs (the
others held fixed) changes the `key_data` string the digest is computed
from. -/
theorem C4_fingerprint_stability (t1 t2 : RawTransaction)
    (hv1 : ValidDT t1.transaction_time) (hv2 : ValidDT t2.transaction_time) :
    ((t1.source_type = t2.source_type ∧ t1.source_account = t2.source_account ∧
      t1.transaction_time = t2.transaction_time ∧ t1.account_id = t2.account_id ∧
      t1.amount = t2.amount ∧ cpNameOrUnknown t1 = cpNameOrUnknown t2) →
      generate_transaction_id t1 = generate_transaction_id t2) ∧
    ((generate_transaction_id t1).length = 16 ∧
      ∀ c ∈ (generate_transaction_id t1).data, isHexChar c = true) ∧
    (key_data t1 = key_data t2 →
      (t1.source_account = t2.source_account → t1.transaction_time = t2.transaction_time →
        t1.account_id = t2.account_id → t1.amount = t2.amount →
        cpNameOrUnknown t1 = cpNameOrUnknown t2 → t1.source_type = t2.source_type) ∧
      (t1.source_type = t2.source_type → t1.transaction_time = t2.transaction_time →
        t1.account_id = t2.account_id → t1.amount = t2.amount →
        cpNameOrUnknown t1 = cpNameOrUnknown t2 → t1.source_account = t2.source_account) ∧
      (t1.source_type = t2.source_type → t1.source_account = t2.source_account →
        t1.account_id = t2.account_id → t1.amount = t2.amount →
        cpNameOrUnknown t1 = cpNameOrUnknown t2 →
        t1.transaction_time = t2.transaction_time) ∧
      (t1.source_type = t2.source_type → t1.source_account = t2.source_account →
        t1.transaction_time = t2.transaction_time → t1.amount = t2.amount →
        cpNameOrUnknown t1 = cpNameOrUnknown t2 → t1.account_id = t2.account_id) ∧
      (t1.source_type = t2.source_type → t1.source_account = t2.source_account →
        t1.transaction_time = t2.transaction_time → t1.account_id = t2.account_id →
        cpNameOrUnknown t1 = cpNameOrUnknown t2 → t1.amount = t2.amount) ∧
      (t1.source_type = t2.source_type → t1.source_account = t2.source_account →
        t1.transaction_time = t2.transaction_time → t1.account_id = t2.account_id →
        t1.amount = t2.amount → cpNameOrUnknown t1 = cpNameOrUnknown t2)) := by
  refine ⟨?_, ⟨?_, ?_⟩, ?_⟩
  · rintro ⟨h1, h2, h3, h4, h5, h6⟩
    unfold generate_transaction_id key_data
    rw [h1, h2, h3, h4, h5, h6]
  · exact take16_length _ (sha256hex_length _)
  · intro c hc
    exact sha256hex_hex _ c (mem_take16 _ _ hc)
  · intro hk
    have L0 := congrArg String.data hk
    simp only [key_data, String.data_append, show (":" : String).data = [':'] from rfl,
      List.append_assoc, List.singleton_append] at L0
    refine ⟨?_, ?_, ?_, ?_, ?_, ?_⟩
    · intro h2 h3 h4 h5 h6
      have L := L0
      rw [h2, h3, h4, h5, h6] at L
      exact String.ext (List.append_cancel_right L)
    · intro h1 h3 h4 h5 h6
      have L := L0
      rw [h1, h3, h4, h5, h6] at L
      exact String.ext (List.append_cancel_right
        (consTail (List.append_cancel_left L)))
    · intro h1 h2 h4 h5 h6
      have L := L0
      rw [h1, h2, h4, h5, h6] at L
      exact isoformat_inj _ _ hv1 hv2 (String.ext (List.append_cancel_right
        (consTail (List.append_cancel_left
          (consTail (List.append_cancel_left L))))))
    · intro h1 h2 h3 h5 h6
      have L := L0
      rw [h1, h2, h3, h5, h6] at L
      exact String.ext (List.append_cancel_right
        (consTail (List.append_cancel_left
          (consTail (List.append_cancel_left
            (consTail (List.append_cancel_left L)))))))
    · intro h1 h2 h3 h4 h6
      have L := L0
      rw [h1, h2, h3, h4, h6] at L
      exact decStr_inj _ _ (String.ext (List.append_cancel_right
        (consTail (List.append_cancel_left
          (consTail (List.append_cancel_left
            (consTail (List.append_cancel_left
              (consTail (List.append_cancel_left L))))))))))
    · intro h1 h2 h3 h4 h5
      have L := L0
      rw [h1, h2, h3, h4, h5] at L
      exact String.ext
        (consTail (List.append_cancel_left
          (consTail (List.append_cancel_left
            (consTail (List.append_cancel_left
              (consTail (List.append_cancel_left
                (consTail (List.append_cancel_left L))))))))))
/-- The sample record with every non-key field changed. -/
def sampleTxNoised : RawTransaction :=
  { sampleTx with
    raw_id := "raw-other"
    notes := "edited"
    metadata := [("k", "v")]
    tags := ["a"]
    raw_data := "snapshot"
    account_name := some "招行借记卡"
    channel := some { name := some "微信支付", provider := some "财付通" } }

/-- Witness for C4: two records agreeing on the six key inputs but
differing in raw id, notes, metadata, tags, snapshot, account name and
channel have the same fingerprint. -/
theorem C4_fingerprint_stability_witness :
    (ValidDT sampleTx.transaction_time ∧ ValidDT sampleTxNoised.transaction_time) ∧
    generate_transaction_id sampleTx = generate_transaction_id sampleTxNoised :=
  ⟨⟨by decide, by decide⟩,
    (C4_fingerprint_stability sampleTx sampleTxNoised (by decide) (by decide)).1
      ⟨rfl, rfl, rfl, rfl, rfl, rfl⟩⟩
/-! ## Notification parser model (`src/parsers/cmb_email_parser.py`) -/

/-- Backtracking regular expressions, covering exactly the constructs the
CMB patterns use: literals, single-character classes, concatenation,
alternation, capturing groups, greedy option, fixed class repetition,
greedy/lazy class repetition and the end anchor. -/
inductive RE where
  | eps : RE
  | lit : Char → RE
  | cls : (Char → Bool) → RE
  | seq : RE → RE → RE
  | alt : RE → RE → RE
  | grp : Nat → RE → RE
  | opt : RE → RE
  | rep : (Char → Bool) → Nat → RE
  | plusG : (Char → Bool) → RE
  | starG : (Char → Bool) → RE
  | plusL : (Char → Bool) → RE
  | eos : RE

/-- Capture slots, indexed like Python's 0-based `match.groups()`. -/
abbrev Caps := List (Option (List Char))

/-- Fresh capture state (all patterns here have at most 8 groups). -/
def initCaps : Caps := List.replicate 8 none

/-- Run a regex against a prefix of `input`: all ways to match, as
(consumed, remaining, captures), in Python's backtracking priority order
(greedy longest-first, lazy shortest-first, alternation left-first). -/
def runRE : RE → List Char → Caps → List (List Char × List Char × Caps)
  | .eps, input, caps => [([], input, caps)]
  | .lit c, input, caps =>
    match input with
    | [] => []
    | x :: rest => if x = c then [([x], rest, caps)] else []
  | .cls p, input, caps =>
    match input with
    | [] => []
    | x :: rest => if p x then [([x], rest, caps)] else []
  | .seq a b, input, caps =>
    (runRE a input caps).flatMap fun r =>
      (runRE b r.2.1 r.2.2).map fun r2 => (r.1 ++ r2.1, r2.2.1, r2.2.2)
  | .alt a b, input, caps => runRE a input caps ++ runRE b input caps
  | .grp i r, input, caps =>
    (runRE r input caps).map fun r2 => (r2.1, r2.2.1, r2.2.2.set i (some r2.1))
  | .opt r, input, caps => runRE r input caps ++ [([], input, caps)]
  | .rep p n, input, caps =>
    if (input.take n).length = n ∧ (input.take n).all p then
      [(input.take n, input.drop n, caps)]
    else []
  | .plusG p, input, caps =>
    ((List.range' 1 (input.takeWhile p).length).reverse).map
      fun k => (input.take k, input.drop k, caps)
  | .starG p, input, caps =>
    ((List.range ((input.takeWhile p).length + 1)).reverse).map
      fun k => (input.take k, input.drop k, caps)
  | .plusL p, input, caps =>
    (List.range' 1 (input.takeWhile p).length).map
      fun k => (input.take k, input.drop k, caps)
  | .eos, input, caps =>
    if input = [] ∨ input = ['\n'] then [([], input, caps)] else []

/-- `re.search`: leftmost match position, then backtracking priority;
returns (matched text, captures), i.e. `group(0)` and `groups()`. -/
def reSearch (re : RE) : List Char → Option (List Char × Caps)
  | [] =>
    match runRE re [] initCaps with
    | r :: _ => some (r.1, r.2.2)
    | [] => none
  | c :: t =>
    match runRE re (c :: t) initCaps with
    | r :: _ => some (r.1, r.2.2)
    | [] => reSearch re t

/-- Sequence a list of regexes. -/
def reSeq (l : List RE) : RE := l.foldr RE.seq RE.eps

/-- Literal string regex. -/
def reStr (s : String) : RE := reSeq (s.data.map RE.lit)

/-- `\d`. -/
def digitCls (c : Char) : Bool := 48 ≤ c.toNat && c.toNat ≤ 57

/-- `[A-Z]`. -/
def upperCls (c : Char) : Bool := 65 ≤ c.toNat && c.toNat ≤ 90

/-- `.` (anything but a newline; no DOTALL flag is set). -/
def dotCls (c : Char) : Bool := c != '\n'

/-- Unicode whitespace, as matched by `\s` and stripped by `str.strip()`
(the ASCII whitespace characters plus the common Unicode spaces
occurring in such mail). -/
def isPySpace (c : Char) : Bool :=
  c == ' ' || c == '\t' || c == '\n' || c == '\r' || c == '\x0b' || c == '\x0c' ||
    c == ' ' || c == '　'

/-- `[:：]`. -/
def colonCls (c : Char) : Bool := c == ':' || c == '：'

/-- `(\d+\.?\d*)`s body. -/
def numRe : RE := RE.seq (RE.plusG digitCls) (RE.seq (RE.opt (RE.lit '.')) (RE.starG digitCls))

/-- The shared `您账户\*?(\d{4})于(\d{2})月(\d{2})日(\d{2}):(\d{2})` prefix. -/
def cardTimeRe : RE :=
  reSeq [reStr "您账户", RE.opt (RE.lit '*'), RE.grp 0 (RE.rep digitCls 4), reStr "于",
    RE.grp 1 (RE.rep digitCls 2), reStr "月", RE.grp 2 (RE.rep digitCls 2), reStr "日",
    RE.grp 3 (RE.rep digitCls 2), reStr ":", RE.grp 4 (RE.rep digitCls 2)]

/-- Model of `_compile_patterns`: the pattern table, by name. -/
def cmb_patterns (name : String) : Option RE :=
  if name = "quick_pay" then
    some (reSeq [cardTimeRe, reStr "在", RE.grp 5 (RE.plusL dotCls), reStr "快捷支付",
      RE.grp 6 numRe, reStr "元，余额", RE.grp 7 numRe])
  else if name = "merchant_consumption" then
    some (reSeq [cardTimeRe, reStr "在", RE.grp 5 (RE.plusL dotCls), reStr "消费",
      RE.opt (RE.grp 6 (RE.rep upperCls 3)), RE.starG isPySpace, RE.grp 7 numRe,
      RE.opt (RE.lit '元')])
  else if name = "consumption" then
    some (reSeq [cardTimeRe, reStr "消费", RE.opt (RE.grp 5 (RE.rep upperCls 3)),
      RE.starG isPySpace, RE.grp 6 numRe, RE.opt (RE.lit '元')])
  else if name = "income" then
    some (reSeq [cardTimeRe, RE.opt (RE.lit '入'), reStr "账",
      RE.opt (RE.grp 5 (RE.rep upperCls 3)), RE.starG isPySpace, RE.grp 6 numRe,
      RE.opt (RE.lit '元')])
  else if name = "income_with_balance" then
    some (reSeq [cardTimeRe, reStr "收款", RE.grp 5 numRe, reStr "元，余额", RE.grp 6 numRe,
      reStr "，备注：", RE.grp 7 (RE.plusL dotCls), RE.alt (RE.lit '\n') RE.eos])
  else if name = "transfer_out" then
    some (reSeq [reStr "您向", RE.grp 0 (RE.plusL dotCls), reStr "转账",
      RE.opt (RE.grp 1 (RE.rep upperCls 3)), RE.starG isPySpace, RE.grp 2 numRe,
      RE.opt (RE.lit '元')])
  else if name = "balance_query" then
    some (reSeq [reStr "余额", RE.opt (reStr "为"), RE.opt (RE.cls colonCls),
      RE.starG isPySpace, RE.grp 0 numRe])
  else none

/-- The `余额[:：]?\s*(\d+\.?\d*)` fallback pattern local to
`_extract_balance`. -/
def balanceFallbackRe : RE :=
  reSeq [reStr "余额", RE.opt (RE.cls colonCls), RE.starG isPySpace, RE.grp 0 numRe]

/-- CRLF/CR → LF normalisation of `_clean_text`. -/
def normalizeNewlines : List Char → List Char
  | [] => []
  | '\r' :: '\n' :: rest => '\n' :: normalizeNewlines rest
  | '\r' :: rest => '\n' :: normalizeNewlines rest
  | c :: rest => c :: normalizeNewlines rest

/-- `str.strip()`. -/
def pyStrip (cs : List Char) : List Char :=
  ((cs.dropWhile isPySpace).reverse.dropWhile isPySpace).reverse

/-- Model of `_clean_text`: normalise newlines, strip each line, join the
nonempty lines with single spaces. -/
def _clean_text (text : String) : String :=
  let lines := (normalizeNewlines text.data).splitOn '\n'
  let stripped := lines.map pyStrip
  String.mk (List.intercalate [' '] (stripped.filter (fun l => !l.isEmpty)))

/-- `str(g)` on an optional regex group (`str(None)` is `"None"`). -/
def pyStr (g : Option (List Char)) : String :=
  match g with
  | none => "None"
  | some s => String.mk s

/-- `Decimal(str(g))` inside the extractors\' `try` blocks. The guarding
`except` tuple names `Decimal.InvalidOperation`, which does not exist, so
evaluating the tuple while handling any raised exception raises an
`AttributeError` that escapes the extractor; hence every conversion
failure is an error outcome, never a caught one. -/
def decFromGroup (g : Option (List Char)) : Except Unit Dec :=
  match parseDec (pyStr g) with
  | some d => Except.ok d
  | none => Except.error ()

/-- `int(s)` on the digit strings captured by the patterns. -/
def pyInt? (cs : List Char) : Option Nat :=
  if cs.all isDigitChar && !cs.isEmpty then some (charsVal cs) else none

/-- Capture groups of a regex, in group-number order, with their bodies. -/
def groupsOf : RE → List (Nat × RE)
  | .seq a b => groupsOf a ++ groupsOf b
  | .alt a b => groupsOf a ++ groupsOf b
  | .grp i r => (i, r) :: groupsOf r
  | .opt r => groupsOf r
  | _ => []

/-- Number of capture groups of a named pattern: the length of
`match.groups()` for a match of that pattern. -/
def groupCount (name : String) : Nat :=
  match cmb_patterns name with
  | some re => (groupsOf re).length
  | none => 0

/-- Contiguous-substring scan. -/
def strContains (sub : List Char) : List Char → Bool
  | [] => sub.isEmpty
  | c :: rest => sub.isPrefixOf (c :: rest) || strContains sub rest

/-- `sub in s` (Python substring test). -/
def pyIn (sub s : String) : Bool := strContains sub.data s.data

/-- Model of `_extract_card_tail` (`groups[0] if groups[0] else "unknown"`,
with Python truthiness on the optional group). -/
def _extract_card_tail (groups : List (Option (List Char))) (pattern_name : String) : String :=
  if pattern_name ∈ ["quick_pay", "merchant_consumption", "consumption", "income", "income_with_balance"] then
    match groups.getD 0 none with
    | some s => if s.isEmpty then "unknown" else String.mk s
    | none => "unknown"
  else "unknown"

/-- Model of `_extract_time`. The `try` catches only `IndexError` and
`ValueError`: a `None` group makes `int(None)` raise an uncaught
`TypeError` (error outcome); an unparsable digit string raises a caught
`ValueError` (fall through to `datetime.now()`); an out-of-range
component makes the `datetime` constructor raise a caught `ValueError`
(likewise). The four conversions run left to right, as in the tuple
assignment of the source. -/
def _extract_time (groups : List (Option (List Char))) (pattern_name : String)
    (now : PyDateTime) : Except Unit PyDateTime :=
  if pattern_name ∈ ["quick_pay", "merchant_consumption", "consumption", "income", "income_with_balance"] then
    match groups.getD 1 none with
    | none => Except.error ()
    | some g1 =>
      match pyInt? g1 with
      | none => Except.ok now
      | some month =>
        match groups.getD 2 none with
        | none => Except.error ()
        | some g2 =>
          match pyInt? g2 with
          | none => Except.ok now
          | some day =>
            match groups.getD 3 none with
            | none => Except.error ()
            | some g3 =>
              match pyInt? g3 with
              | none => Except.ok now
              | some hour =>
                match groups.getD 4 none with
                | none => Except.error ()
                | some g4 =>
                  match pyInt? g4 with
                  | none => Except.ok now
                  | some minute =>
                    let year := if month > now.month then now.year - 1 else now.year
                    if ValidDT ⟨year, month, day, hour, minute, 0, 0⟩ then
                      Except.ok ⟨year, month, day, hour, minute, 0, 0⟩
                    else Except.ok now
  else Except.ok now

/-- Model of `_extract_amount` (`Decimal("0")` when no branch applies). -/
def _extract_amount (groups : List (Option (List Char))) (pattern_name : String) :
    Except Unit Dec :=
  if pattern_name = "quick_pay" then decFromGroup (groups.getD 6 none)
  else if pattern_name = "merchant_consumption" then decFromGroup (groups.getD 7 none)
  else if pattern_name = "consumption" ∨ pattern_name = "income" then
    decFromGroup (if groups.length > 6 then groups.getD 6 none else groups.getD 5 none)
  else if pattern_name = "income_with_balance" then decFromGroup (groups.getD 5 none)
  else if pattern_name = "transfer_out" then decFromGroup (groups.getD 2 none)
  else Except.ok Dec.zero

/-- Model of `_extract_balance`: pattern-specific groups first, then the
`余额[:：]?\\s*(\\d+\\.?\\d*)` fallback over the full text, else `None`. -/
def _extract_balance (groups : List (Option (List Char))) (pattern_name : String)
    (full_text : String) : Except Unit (Option Dec) :=
  if pattern_name = "quick_pay" ∧ groups.length > 7 then
    (decFromGroup (groups.getD 7 none)).map some
  else if pattern_name = "income_with_balance" ∧ groups.length > 6 then
    (decFromGroup (groups.getD 6 none)).map some
  else
    match reSearch balanceFallbackRe full_text.data with
    | some m => (decFromGroup (m.2.getD 0 none)).map some
    | none => Except.ok none

/-- The ordered `category_keywords` table of `_infer_category`. -/
def category_keywords : List (String × List String) :=
  [("餐饮", ["餐厅", "饭店", "美食", "咖啡", "奶茶", "火锅", "烧烤", "快餐", "肯德基", "麦当劳", "星巴克"]),
   ("购物", ["商城", "超市", "便利店", "京东", "淘宝", "天猫", "拼多多", "亚马逊"]),
   ("交通", ["地铁", "公交", "打车", "滴滴", "出租车", "加油", "停车", "高速"]),
   ("娱乐", ["电影", "视频", "音乐", "游戏", "网吧", "ktv", "影院"]),
   ("生活服务", ["水电", "燃气", "物业", "话费", "宽带", "快递", "洗衣"]),
   ("医疗健康", ["医院", "药店", "诊所", "体检"]),
   ("教育", ["培训", "学校", "学费", "书本"])]

/-- Model of `_infer_category`: first category one of whose keywords is a
substring of the merchant name or of its lower-cased form. -/
def _infer_category (merchant_name : String) : Option String :=
  let merchant_lower := String.mk (merchant_name.data.map Char.toLower)
  (category_keywords.find? fun ck =>
    ck.2.any fun kw => pyIn kw merchant_name || pyIn kw merchant_lower).map (fun ck => ck.1)

/-- Model of `_extract_counterparty` (total: its `try` catches every
exception and the function then returns `None`; a `None` group raises
`AttributeError` at `.split` and is thus a `None` outcome). -/
def _extract_counterparty (groups : List (Option (List Char))) (pattern_name : String)
    ( full_text : String) : Option Counterparty :=
  if pattern_name = "quick_pay" ∧ groups.length > 5 then
    match groups.getD 5 none with
    | none => none
    | some merchant_str =>
      let parts := merchant_str.splitOn '-'
      let merchant_name := if parts.length > 2 then parts.getD 2 [] else merchant_str
      some ⟨String.mk (pyStrip merchant_name), some "merchant", _infer_category (String.mk merchant_name)⟩
  else if pattern_name = "merchant_consumption" ∧ groups.length > 5 then
    match groups.getD 5 none with
    | none => none
    | some merchant_name =>
      some ⟨String.mk (pyStrip merchant_name), some "merchant", _infer_category (String.mk merchant_name)⟩
  else if pattern_name = "transfer_out" then
    match groups.getD 0 none with
    | none => none
    | some recipient => some ⟨String.mk (pyStrip recipient), some "person", none⟩
  else if pattern_name = "income_with_balance" ∧ groups.length > 7 then
    match groups.getD 7 none with
    | none => none
    | some remark =>
      let parts := remark.splitOn '-'
      if parts.length ≥ 2 then some ⟨String.mk (pyStrip (parts.getD 1 [])), some "person", none⟩
      else some ⟨String.mk (pyStrip remark), some "merchant", none⟩
  else none

/-- The full-text keyword fallback at the end of `_extract_channel`. -/
def keywordChannel (full_text : String) : Option PaymentChannel :=
  if pyIn "微信支付" full_text || pyIn "财付通" full_text then
    some ⟨some "微信支付", some "财付通", none⟩
  else if pyIn "支付宝" full_text then some ⟨some "支付宝", some "支付宝", none⟩
  else none

/-- Model of `_extract_channel` (total, like `_extract_counterparty`; a
two-part remark in the `income_with_balance` branch falls through to the
keyword fallback). -/
def _extract_channel (groups : List (Option (List Char))) (pattern_name : String)
    (full_text : String) : Option PaymentChannel :=
  if pattern_name = "quick_pay" ∧ groups.length > 5 then
    match groups.getD 5 none with
    | none => none
    | some merchant_str =>
      let parts := merchant_str.splitOn '-'
      some ⟨(if parts.length > 1 then some (String.mk (parts.getD 1 [])) else none),
        (if parts.length > 0 then some (String.mk (parts.getD 0 [])) else none),
        some "quick_pay"⟩
  else if pattern_name = "income_with_balance" ∧ groups.length > 7 then
    match groups.getD 7 none with
    | none => none
    | some remark =>
      let parts := remark.splitOn '-'
      if parts.length ≥ 3 then
        let provider := String.mk (pyStrip (parts.getD 0 []))
        let channel_info := if parts.length > 2 then String.mk (pyStrip (parts.getD 2 [])) else ""
        if pyIn "微信" channel_info || pyIn "零钱" channel_info then
          some ⟨some "微信零钱提现", some provider, some "transfer"⟩
        else some ⟨some channel_info, some provider, some "transfer"⟩
      else if parts.length = 1 then
        some ⟨some (String.mk (pyStrip (parts.getD 0 []))), none, some "transfer"⟩
      else keywordChannel full_text
  else keywordChannel full_text

/-- Model of `_generate_raw_id`: first 16 hex characters of the MD5 of
`f"{pattern_name}:{match.group(0)}"`. -/
def _generate_raw_id (pattern_name : String) (m0 : List Char) : String :=
  (md5hex (pattern_name ++ ":" ++ String.mk m0)).take 16

/-- Model of `_build_transaction`: sequence the fallible extractors, then
assemble the `RawTransaction` literal of the source. -/
def _build_transaction (m0 : List Char) (caps : Caps) (pattern_name : String)
    (transaction_type : String) (full_text : String)
    (email_subject email_from email_date : String) (now : PyDateTime) :
    Except Unit RawTransaction :=
  let groups := caps.take (groupCount pattern_name)
  let card_tail := _extract_card_tail groups pattern_name
  match _extract_time groups pattern_name now with
  | Except.error e => Except.error e
  | Except.ok trans_time =>
    match _extract_amount groups pattern_name with
    | Except.error e => Except.error e
    | Except.ok amount =>
      match _extract_balance groups pattern_name full_text with
      | Except.error e => Except.error e
      | Except.ok balance =>
        Except.ok
          { raw_id := _generate_raw_id pattern_name m0
            source_type := "cmb_email"
            source_account := email_from
            transaction_time := trans_time
            account_id := card_tail
            account_type := some "debit"
            transaction_type := transaction_type
            amount := amount
            currency := "CNY"
            balance := balance
            counterparty := _extract_counterparty groups pattern_name full_text
            channel := _extract_channel groups pattern_name full_text
            metadata := [("pattern_matched", pattern_name),
              ("email_subject", email_subject), ("email_date", email_date)]
            raw_data := full_text.take 1000 }

/-- The ordered `patterns_to_try` list of `parse`. -/
def patterns_to_try : List (String × String) :=
  [("quick_pay", "consumption"), ("merchant_consumption", "consumption"),
   ("consumption", "consumption"), ("income_with_balance", "income"),
   ("income", "income"), ("transfer_out", "transfer_out")]

/-- The pattern loop of `parse`, abstracted over the record builder: a
missing pattern, a failed search, or a builder error each move on to the
next pattern; the first successful build is returned. -/
def parseLoop (build : String → String → List Char × Caps → Except Unit RawTransaction) :
    List (String × String) → String → Option RawTransaction
  | [], _ => none
  | (pattern_name, trans_type) :: rest, text =>
    match cmb_patterns pattern_name with
    | none => parseLoop build rest text
    | some pattern =>
      match reSearch pattern text.data with
      | none => parseLoop build rest text
      | some m =>
        match build pattern_name trans_type m with
        | Except.ok r => some r
        | Except.error _ => parseLoop build rest text

/-- Model of `CMBEmailParser.parse`, with the two `datetime.now()` reads
of `_extract_time` passed as the explicit clock value `now`. -/
def CMBEmailParser.parse (email_body : String) (email_subject : String)
    (email_from : String) (email_date : String) (now : PyDateTime) : Option RawTransaction :=
  let text := _clean_text email_body
  parseLoop
    (fun pattern_name trans_type m =>
      _build_transaction m.1 m.2 pattern_name trans_type text email_subject email_from email_date now)
    patterns_to_try text

/-! ## Regex soundness: what a match implies about the captures -/

/-- Denotation of a regex node: which character lists it can consume. -/
def REsem : RE → List Char → Prop
  | .eps, d => d = []
  | .lit c, d => d = [c]
  | .cls p, d => ∃ c, d = [c] ∧ p c = true
  | .seq a b, d => ∃ x y, d = x ++ y ∧ REsem a x ∧ REsem b y
  | .alt a b, d => REsem a d ∨ REsem b d
  | .grp _ r, d => REsem r d
  | .opt r, d => REsem r d ∨ d = []
  | .rep p n, d => d.length = n ∧ d.all p = true
  | .plusG p, d => d ≠ [] ∧ d.all p = true
  | .starG p, d => d.all p = true
  | .plusL p, d => d ≠ [] ∧ d.all p = true
  | .eos, d => d = []

/-- Groups that every successful match of the regex assigns. -/
def mustSet : RE → Nat → Bool
  | .seq a b, i => mustSet a i || mustSet b i
  | .alt a b, i => mustSet a i && mustSet b i
  | .grp j r, i => (j == i) || mustSet r i
  | _, _ => false

/-- A prefix of bounded length of a `takeWhile` run satisfies the test. -/
lemma all_take_of_le_takeWhile (p : Char → Bool) (l : List Char) (k : Nat)
    (hk : k ≤ (l.takeWhile p).length) : (l.take k).all p = true := by
  have heq : l.take k = (l.takeWhile p).take k := by
    conv_lhs => rw [← List.takeWhile_append_dropWhile (p := p) (l := l)]
    exact List.take_append_of_le_length hk
  rw [heq, List.all_eq_true]
  intro c hc
  exact List.mem_takeWhile_imp (List.mem_of_mem_take hc)

/-- Soundness of the matcher: every result consumes a prefix, keeps the
capture-list length, consumes a word in the regex denotation, and touches
a capture slot only by assigning some group body a word of that body
denotation; groups marked `mustSet` are certainly assigned. -/
theorem runRE_sound (r : RE) : ∀ (input : List Char) (caps : Caps)
    (res : List Char × List Char × Caps), res ∈ runRE r input caps →
    res.1 ++ res.2.1 = input ∧ res.2.2.length = caps.length ∧ REsem r res.1 ∧
    ∀ i, i < caps.length →
      (res.2.2[i]? = caps[i]? ∧ mustSet r i = false) ∨
      ∃ g d, (i, g) ∈ groupsOf r ∧ res.2.2[i]? = some (some d) ∧ REsem g d := by
  induction r with
  | eps =>
    intro input caps res hres
    simp only [runRE, List.mem_singleton] at hres
    subst hres
    exact ⟨rfl, rfl, rfl, fun i _ => Or.inl ⟨rfl, rfl⟩⟩
  | lit c =>
    intro input caps res hres
    cases input with
    | nil => simp [runRE] at hres
    | cons x rest =>
      simp only [runRE] at hres
      split at hres
      · next hx =>
        simp only [List.mem_singleton] at hres
        subst hres
        subst hx
        exact ⟨rfl, rfl, rfl, fun i _ => Or.inl ⟨rfl, rfl⟩⟩
      · simp at hres
  | cls p =>
    intro input caps res hres
    cases input with
    | nil => simp [runRE] at hres
    | cons x rest =>
      simp only [runRE] at hres
      split at hres
      · next hx =>
        simp only [List.mem_singleton] at hres
        subst hres
        exact ⟨rfl, rfl, ⟨x, rfl, hx⟩, fun i _ => Or.inl ⟨rfl, rfl⟩⟩
      · simp at hres
  | seq a b iha ihb =>
    intro input caps res hres
    simp only [runRE, List.mem_flatMap, List.mem_map] at hres
    obtain ⟨ra, hra, rb, hrb, heq⟩ := hres
    subst heq
    obtain ⟨ha1, ha2, ha3, ha4⟩ := iha input caps ra hra
    obtain ⟨hb1, hb2, hb3, hb4⟩ := ihb ra.2.1 ra.2.2 rb hrb
    refine ⟨?_, hb2.trans ha2, ⟨ra.1, rb.1, rfl, ha3, hb3⟩, fun i hi => ?_⟩
    · show (ra.1 ++ rb.1) ++ rb.2.1 = input
      rw [List.append_assoc, hb1]
      exact ha1
    · have hi2 : i < ra.2.2.length := by rw [ha2]; exact hi
      rcases hb4 i hi2 with ⟨hub, hmb⟩ | ⟨g, d, hg, hset, hsem⟩
      · rcases ha4 i hi with ⟨hua, hma⟩ | ⟨g, d, hg, hset, hsem⟩
        · exact Or.inl ⟨hub.trans hua, by simp [mustSet, hma, hmb]⟩
        · refine Or.inr ⟨g, d, ?_, hub.trans hset, hsem⟩
          simp only [groupsOf]
          exact List.mem_append_left _ hg
      · refine Or.inr ⟨g, d, ?_, hset, hsem⟩
        simp only [groupsOf]
        exact List.mem_append_right _ hg
  | alt a b iha ihb =>
    intro input caps res hres
    simp only [runRE, List.mem_append] at hres
    rcases hres with h | h
    · obtain ⟨h1, h2, h3, h4⟩ := iha input caps res h
      refine ⟨h1, h2, Or.inl h3, fun i hi => ?_⟩
      rcases h4 i hi with ⟨hu, hm⟩ | ⟨g, d, hg, hset, hsem⟩
      · exact Or.inl ⟨hu, by simp [mustSet, hm]⟩
      · refine Or.inr ⟨g, d, ?_, hset, hsem⟩
        simp only [groupsOf]
        exact List.mem_append_left _ hg
    · obtain ⟨h1, h2, h3, h4⟩ := ihb input caps res h
      refine ⟨h1, h2, Or.inr h3, fun i hi => ?_⟩
      rcases h4 i hi with ⟨hu, hm⟩ | ⟨g, d, hg, hset, hsem⟩
      · exact Or.inl ⟨hu, by simp [mustSet, hm]⟩
      · refine Or.inr ⟨g, d, ?_, hset, hsem⟩
        simp only [groupsOf]
        exact List.mem_append_right _ hg
  | grp j body ih =>
    intro input caps res hres
    simp only [runRE, List.mem_map] at hres
    obtain ⟨r2, hr2, heq⟩ := hres
    subst heq
    obtain ⟨h1, h2, h3, h4⟩ := ih input caps r2 hr2
    refine ⟨h1, by simpa using h2, h3, fun i hi => ?_⟩
    by_cases hij : j = i
    · subst hij
      refine Or.inr ⟨body, r2.1, ?_, ?_, h3⟩
      · simp only [groupsOf]
        exact List.mem_cons_self _ _
      · exact List.getElem?_set_self (by rw [h2]; exact hi)
    · rcases h4 i hi with ⟨hu, hm⟩ | ⟨g, d, hg, hset, hsem⟩
      · refine Or.inl ⟨?_, ?_⟩
        · rw [List.getElem?_set_ne hij]
          exact hu
        · simp [mustSet, hm, hij]
      · refine Or.inr ⟨g, d, ?_, ?_, hsem⟩
        · simp only [groupsOf]
          exact List.mem_cons_of_mem _ hg
        · rw [List.getElem?_set_ne hij]
          exact hset
  | opt body ih =>
    intro input caps res hres
    simp only [runRE, List.mem_append, List.mem_singleton] at hres
    rcases hres with h | h
    · obtain ⟨h1, h2, h3, h4⟩ := ih input caps res h
      refine ⟨h1, h2, Or.inl h3, fun i hi => ?_⟩
      rcases h4 i hi with ⟨hu, _⟩ | ⟨g, d, hg, hset, hsem⟩
      · exact Or.inl ⟨hu, rfl⟩
      · exact Or.inr ⟨g, d, hg, hset, hsem⟩
    · subst h
      exact ⟨rfl, rfl, Or.inr rfl, fun i _ => Or.inl ⟨rfl, rfl⟩⟩
  | rep p n =>
    intro input caps res hres
    simp only [runRE] at hres
    split at hres
    · next hc =>
      simp only [List.mem_singleton] at hres
      subst hres
      exact ⟨List.take_append_drop n input, rfl, hc, fun i _ => Or.inl ⟨rfl, rfl⟩⟩
    · simp at hres
  | plusG p =>
    intro input caps res hres
    simp only [runRE, List.mem_map, List.mem_reverse] at hres
    obtain ⟨k, hk, heq⟩ := hres
    subst heq
    obtain ⟨hk1, hk2⟩ := List.mem_range'_1.mp hk
    have hkle : k ≤ (input.takeWhile p).length := by omega
    have hkin : k ≤ input.length := le_trans hkle (List.takeWhile_prefix p).length_le
    refine ⟨List.take_append_drop k input, rfl,
      ⟨?_, all_take_of_le_takeWhile p input k hkle⟩, fun i _ => Or.inl ⟨rfl, rfl⟩⟩
    have hpos : 0 < (input.take k).length := by
      rw [List.length_take]
      omega
    exact List.ne_nil_of_length_pos hpos
  | starG p =>
    intro input caps res hres
    simp only [runRE, List.mem_map, List.mem_reverse] at hres
    obtain ⟨k, hk, heq⟩ := hres
    subst heq
    have hkle : k ≤ (input.takeWhile p).length := by
      have := List.mem_range.mp hk
      omega
    exact ⟨List.take_append_drop k input, rfl, all_take_of_le_takeWhile p input k hkle,
      fun i _ => Or.inl ⟨rfl, rfl⟩⟩
  | plusL p =>
    intro input caps res hres
    simp only [runRE, List.mem_map] at hres
    obtain ⟨k, hk, heq⟩ := hres
    subst heq
    obtain ⟨hk1, hk2⟩ := List.mem_range'_1.mp hk
    have hkle : k ≤ (input.takeWhile p).length := by omega
    have hkin : k ≤ input.length := le_trans hkle (List.takeWhile_prefix p).length_le
    refine ⟨List.take_append_drop k input, rfl,
      ⟨?_, all_take_of_le_takeWhile p input k hkle⟩, fun i _ => Or.inl ⟨rfl, rfl⟩⟩
    have hpos : 0 < (input.take k).length := by
      rw [List.length_take]
      omega
    exact List.ne_nil_of_length_pos hpos
  | eos =>
    intro input caps res hres
    simp only [runRE] at hres
    split at hres
    · simp only [List.mem_singleton] at hres
      subst hres
      exact ⟨rfl, rfl, rfl, fun i _ => Or.inl ⟨rfl, rfl⟩⟩
    · simp at hres

/-- The head result of a matcher run, as taken by `reSearch`, has
well-formed captures. -/
lemma runRE_head_caps (re : RE) (input : List Char)
    (r : List Char × List Char × Caps) (t : List (List Char × List Char × Caps))
    (hrun : runRE re input initCaps = r :: t) :
    r.2.2.length = 8 ∧
    ∀ i, i < 8 →
      (r.2.2[i]? = some none ∧ mustSet re i = false) ∨
      ∃ g d, (i, g) ∈ groupsOf re ∧ r.2.2[i]? = some (some d) ∧ REsem g d := by
  have hmem : r ∈ runRE re input initCaps := by
    rw [hrun]
    exact List.mem_cons_self r t
  obtain ⟨_, h2, _, h4⟩ := runRE_sound re input initCaps r hmem
  have hlen8 : initCaps.length = 8 := rfl
  refine ⟨by rw [h2, hlen8], fun i hi => ?_⟩
  rcases h4 i (by rw [hlen8]; exact hi) with ⟨hu, hm⟩ | hset
  · refine Or.inl ⟨?_, hm⟩
    rw [hu]
    exact List.getElem?_replicate_of_lt hi
  · exact Or.inr hset

/-- Soundness of `re.search`: a successful search yields eight capture
slots, each untouched or assigned a word of the denotation of the
corresponding group body; `mustSet` groups are certainly assigned. -/
theorem reSearch_sound (re : RE) : ∀ (l m0 : List Char) (caps : Caps),
    reSearch re l = some (m0, caps) →
    caps.length = 8 ∧
    ∀ i, i < 8 →
      (caps[i]? = some none ∧ mustSet re i = false) ∨
      ∃ g d, (i, g) ∈ groupsOf re ∧ caps[i]? = some (some d) ∧ REsem g d := by
  intro l
  induction l with
  | nil =>
    intro m0 caps h
    unfold reSearch at h
    rcases hrun : runRE re [] initCaps with _ | ⟨r, rt⟩ <;> rw [hrun] at h
    · cases h
    · injection h with h2
      rw [Prod.mk.injEq] at h2
      obtain ⟨rfl, rfl⟩ := h2
      exact runRE_head_caps re [] r rt hrun
  | cons c t ih =>
    intro m0 caps h
    unfold reSearch at h
    rcases hrun : runRE re (c :: t) initCaps with _ | ⟨r, rt⟩ <;> rw [hrun] at h
    · exact ih m0 caps h
    · injection h with h2
      rw [Prod.mk.injEq] at h2
      obtain ⟨rfl, rfl⟩ := h2
      exact runRE_head_caps re (c :: t) r rt hrun

/-- A word of the `(\\d+\\.?\\d*)` denotation is accepted by the
`Decimal` constructor model. -/
lemma parseDec_of_numRe (s : List Char) (h : REsem numRe s) :
    ∃ d, parseDec (String.mk s) = some d := by
  obtain ⟨x, y, hxy, ⟨hne, hxall⟩, u, v, huv, hu, hvall⟩ := h
  subst huv
  subst hxy
  have hxall' : x.all isDigitChar = true := hxall
  have hvall' : v.all isDigitChar = true := hvall
  have hxe : x.isEmpty = false := by
    cases x with
    | nil => exact absurd rfl hne
    | cons a t => rfl
  rcases hu with hdot | hnil
  · have hu' : u = ['.'] := hdot
    subst hu'
    have key : (x ++ ('.' :: v)).splitOn '.' = [x, v] := by
      have h1 : ['.'].intercalate [x, v] = x ++ ('.' :: v) := by
        simp [List.intercalate]
      rw [← h1]
      refine List.splitOn_intercalate [x, v] '.' ?_ (List.cons_ne_nil _ _)
      intro l hl
      simp only [List.mem_cons, List.not_mem_nil, or_false] at hl
      rcases hl with rfl | rfl
      · intro hmem
        exact absurd (List.all_eq_true.mp hxall _ hmem) (by decide)
      · intro hmem
        exact absurd (List.all_eq_true.mp hvall _ hmem) (by decide)
    have hall : (x ++ v).all isDigitChar = true := by
      rw [List.all_append, hxall', hvall']
      rfl
    refine ⟨⟨charsVal (x ++ v), v.length⟩, ?_⟩
    simp only [parseDec, List.singleton_append, key, hall, hxe]
    rfl
  · subst hnil
    have key : (x ++ v).splitOn '.' = [x ++ v] := by
      simp only [List.splitOn]
      refine List.splitOnP_eq_single _ _ ?_
      intro c hc
      simp only [List.mem_append] at hc
      simp only [beq_iff_eq]
      intro hceq
      subst hceq
      rcases hc with hmem | hmem
      · exact absurd (List.all_eq_true.mp hxall _ hmem) (by decide)
      · exact absurd (List.all_eq_true.mp hvall _ hmem) (by decide)
    have hall : (x ++ v).all isDigitChar = true := by
      rw [List.all_append, hxall', hvall']
      rfl
    have hxe2 : (x ++ v).isEmpty = false := by
      cases x with
      | nil => exact absurd rfl hne
      | cons a t => rfl
    refine ⟨⟨charsVal (x ++ v), 0⟩, ?_⟩
    simp only [parseDec, List.nil_append, key, hall, hxe2]
    rfl

/-- With the four datetime groups present, `_extract_time` never raises:
the only uncaught exception is `int(None)`. -/
lemma extract_time_ok (groups : List (Option (List Char))) (name : String) (now : PyDateTime)
    (g1 g2 g3 g4 : List Char)
    (h1 : groups.getD 1 none = some g1) (h2 : groups.getD 2 none = some g2)
    (h3 : groups.getD 3 none = some g3) (h4 : groups.getD 4 none = some g4) :
    ∃ t, _extract_time groups name now = Except.ok t := by
  by_cases hn : name ∈ ["quick_pay", "merchant_consumption", "consumption", "income", "income_with_balance"]
  · simp only [_extract_time, if_pos hn, h1, h2, h3, h4]
    rcases hp1 : pyInt? g1 with _ | mo <;> simp only [hp1]
    · exact ⟨now, rfl⟩
    rcases hp2 : pyInt? g2 with _ | dy <;> simp only [hp2]
    · exact ⟨now, rfl⟩
    rcases hp3 : pyInt? g3 with _ | hr <;> simp only [hp3]
    · exact ⟨now, rfl⟩
    rcases hp4 : pyInt? g4 with _ | mi <;> simp only [hp4]
    · exact ⟨now, rfl⟩
    split <;> split <;> exact ⟨_, rfl⟩
  · exact ⟨now, by simp [_extract_time, hn]⟩

/-- Sixth capture group of the quick-pay pattern is the amount regex. -/
lemma qp_group6 (g : RE)
    (hmem : (6, g) ∈ groupsOf (reSeq [cardTimeRe, reStr "在", RE.grp 5 (RE.plusL dotCls),
      reStr "快捷支付", RE.grp 6 numRe, reStr "元，余额", RE.grp 7 numRe])) : g = numRe := by
  rw [show groupsOf (reSeq [cardTimeRe, reStr "在", RE.grp 5 (RE.plusL dotCls),
      reStr "快捷支付", RE.grp 6 numRe, reStr "元，余额", RE.grp 7 numRe]) =
    [(0, RE.rep digitCls 4), (1, RE.rep digitCls 2), (2, RE.rep digitCls 2),
     (3, RE.rep digitCls 2), (4, RE.rep digitCls 2), (5, RE.plusL dotCls),
     (6, numRe), (7, numRe)] from rfl] at hmem
  simp only [List.mem_cons, List.not_mem_nil, or_false] at hmem
  rcases hmem with h | h | h | h | h | h | h | h <;>
    first
      | exact congrArg Prod.snd h
      | exact absurd (congrArg Prod.fst h) (by simp)

/-- Seventh capture group of the quick-pay pattern is the balance regex. -/
lemma qp_group7 (g : RE)
    (hmem : (7, g) ∈ groupsOf (reSeq [cardTimeRe, reStr "在", RE.grp 5 (RE.plusL dotCls),
      reStr "快捷支付", RE.grp 6 numRe, reStr "元，余额", RE.grp 7 numRe])) : g = numRe := by
  rw [show groupsOf (reSeq [cardTimeRe, reStr "在", RE.grp 5 (RE.plusL dotCls),
      reStr "快捷支付", RE.grp 6 numRe, reStr "元，余额", RE.grp 7 numRe]) =
    [(0, RE.rep digitCls 4), (1, RE.rep digitCls 2), (2, RE.rep digitCls 2),
     (3, RE.rep digitCls 2), (4, RE.rep digitCls 2), (5, RE.plusL dotCls),
     (6, numRe), (7, numRe)] from rfl] at hmem
  simp only [List.mem_cons, List.not_mem_nil, or_false] at hmem
  rcases hmem with h | h | h | h | h | h | h | h <;>
    first
      | exact congrArg Prod.snd h
      | exact absurd (congrArg Prod.fst h) (by simp)

/-- One step of the parse loop: the head pattern matching and building
successfully short-circuits the remaining patterns. -/
lemma parseLoop_head_ok (build : String → String → List Char × Caps → Except Unit RawTransaction)
    (name ty : String) (rest : List (String × String)) (text : String) (re : RE)
    (m : List Char × Caps) (r : RawTransaction)
    (hre : cmb_patterns name = some re) (hs : reSearch re text.data = some m)
    (hb : build name ty m = Except.ok r) :
    parseLoop build ((name, ty) :: rest) text = some r := by
  simp only [parseLoop, hre, hs, hb]

/-- C5: the parser tries its named patterns strictly in the fixed priority
order with `quick_pay` first: whenever the quick-pay pattern matches the
cleaned text — in particular whenever both it and the generic
`consumption` pattern match — `parse` returns exactly the record built
from the quick-pay match, and that record has a non-null counterparty. -/
theorem C5_quick_pay_priority (email_body email_subject email_from email_date : String)
    (now : PyDateTime) (qp : RE)
    (hqp : cmb_patterns "quick_pay" = some qp)
    (hmatch : (reSearch qp (_clean_text email_body).data).isSome = true) :
    ∃ m0 caps r,
      reSearch qp (_clean_text email_body).data = some (m0, caps) ∧
      _build_transaction m0 caps "quick_pay" "consumption" (_clean_text email_body)
        email_subject email_from email_date now = Except.ok r ∧
      CMBEmailParser.parse email_body email_subject email_from email_date now = some r ∧
      r.counterparty ≠ none ∧ r.transaction_type = "consumption" := by
  have hqp2 : (some (reSeq [cardTimeRe, reStr "在", RE.grp 5 (RE.plusL dotCls),
      reStr "快捷支付", RE.grp 6 numRe, reStr "元，余额", RE.grp 7 numRe]) : Option RE) = some qp := by
    rw [← hqp]
    rfl
  injection hqp2 with hqp3
  subst hqp3
  obtain ⟨⟨m0, caps⟩, hsearch⟩ := Option.isSome_iff_exists.mp hmatch
  obtain ⟨hlen, hfacts⟩ := reSearch_sound _ _ _ _ hsearch
  have hms : ∀ i, i < 8 → mustSet (reSeq [cardTimeRe, reStr "在", RE.grp 5 (RE.plusL dotCls),
      reStr "快捷支付", RE.grp 6 numRe, reStr "元，余额", RE.grp 7 numRe]) i = true := by decide
  have hget : ∀ i, i < 8 → ∃ g d, (i, g) ∈ groupsOf (reSeq [cardTimeRe, reStr "在",
      RE.grp 5 (RE.plusL dotCls), reStr "快捷支付", RE.grp 6 numRe, reStr "元，余额",
      RE.grp 7 numRe]) ∧ caps[i]? = some (some d) ∧ REsem g d := by
    intro i hi
    rcases hfacts i hi with ⟨_, hm⟩ | hset
    · exact Bool.noConfusion ((hms i hi).symm.trans hm)
    · exact hset
  obtain ⟨g1, d1, hg1, hc1, hs1⟩ := hget 1 (by omega)
  obtain ⟨g2, d2, hg2, hc2, hs2⟩ := hget 2 (by omega)
  obtain ⟨g3, d3, hg3, hc3, hs3⟩ := hget 3 (by omega)
  obtain ⟨g4, d4, hg4, hc4, hs4⟩ := hget 4 (by omega)
  obtain ⟨g5, d5, hg5, hc5, hs5⟩ := hget 5 (by omega)
  obtain ⟨g6, d6, hg6, hc6, hs6⟩ := hget 6 (by omega)
  obtain ⟨g7, d7, hg7, hc7, hs7⟩ := hget 7 (by omega)
  have hgd : ∀ (i : Nat) (d : List Char), caps[i]? = some (some d) →
      caps.getD i none = some d := by
    intro i d hc
    rw [List.getD_eq_getElem?_getD, hc]
    rfl
  have hgd1 := hgd 1 d1 hc1
  have hgd2 := hgd 2 d2 hc2
  have hgd3 := hgd 3 d3 hc3
  have hgd4 := hgd 4 d4 hc4
  have hgd5 := hgd 5 d5 hc5
  have hgd6 := hgd 6 d6 hc6
  have hgd7 := hgd 7 d7 hc7
  have htake : caps.take (groupCount "quick_pay") = caps := by
    rw [show groupCount "quick_pay" = 8 from rfl, ← hlen]
    exact List.take_length caps
  obtain ⟨t1, ht1⟩ := extract_time_ok caps "quick_pay" now d1 d2 d3 d4 hgd1 hgd2 hgd3 hgd4
  obtain ⟨a6, ha6⟩ := parseDec_of_numRe d6 (qp_group6 g6 hg6 ▸ hs6)
  have hamt : _extract_amount caps "quick_pay" = Except.ok a6 := by
    simp [_extract_amount, decFromGroup, pyStr, hc6, ha6]
  obtain ⟨a7, ha7⟩ := parseDec_of_numRe d7 (qp_group7 g7 hg7 ▸ hs7)
  have hbal : _extract_balance caps "quick_pay" (_clean_text email_body) =
      Except.ok (some a7) := by
    simp [_extract_balance, hlen, decFromGroup, pyStr, hc7, ha7, Except.map]
  have hcp : (_extract_counterparty caps "quick_pay" (_clean_text email_body)).isSome = true := by
    simp [_extract_counterparty, hlen, hc5]
  rcases hbe : _build_transaction m0 caps "quick_pay" "consumption" (_clean_text email_body)
      email_subject email_from email_date now with e | r
  · exfalso
    simp only [_build_transaction, htake, ht1, hamt, hbal] at hbe
    exact Except.noConfusion hbe
  · have hbe0 := hbe
    simp only [_build_transaction, htake, ht1, hamt, hbal] at hbe
    injection hbe with hr
    refine ⟨m0, caps, r, hsearch, hbe0, ?_, ?_, ?_⟩
    · show parseLoop
        (fun pattern_name trans_type m => _build_transaction m.1 m.2 pattern_name trans_type
          (_clean_text email_body) email_subject email_from email_date now)
        patterns_to_try (_clean_text email_body) = some r
      rw [show patterns_to_try = ("quick_pay", "consumption") ::
        [("merchant_consumption", "consumption"), ("consumption", "consumption"),
         ("income_with_balance", "income"), ("income", "income"),
         ("transfer_out", "transfer_out")] from rfl]
      exact parseLoop_head_ok _ "quick_pay" "consumption" _ _ _ (m0, caps) r rfl hsearch hbe0
    · rw [← hr]
      exact Option.ne_none_iff_isSome.mpr hcp
    · rw [← hr]
/-- Witness for C5 on a body matched by both the quick-pay and the generic
consumption pattern. -/
theorem C5_quick_pay_priority_witness :
    ∃ m0 caps r,
      reSearch (reSeq [cardTimeRe, reStr "在", RE.grp 5 (RE.plusL dotCls),
        reStr "快捷支付", RE.grp 6 numRe, reStr "元，余额", RE.grp 7 numRe])
        (_clean_text "您账户8551于02月21日19:25在财付通-微信支付-山月荟装扮快捷支付3.00元，余额100638.62，您账户8551于03月22日20:26消费CNY 128.50").data = some (m0, caps) ∧
      _build_transaction m0 caps "quick_pay" "consumption" (_clean_text "您账户8551于02月21日19:25在财付通-微信支付-山月荟装扮快捷支付3.00元，余额100638.62，您账户8551于03月22日20:26消费CNY 128.50")
        "subject" "bank@cmb" "date" ⟨2026, 2, 21, 20, 0, 0, 0⟩ = Except.ok r ∧
      CMBEmailParser.parse "您账户8551于02月21日19:25在财付通-微信支付-山月荟装扮快捷支付3.00元，余额100638.62，您账户8551于03月22日20:26消费CNY 128.50" "subject" "bank@cmb" "date" ⟨2026, 2, 21, 20, 0, 0, 0⟩ = some r ∧
      r.counterparty ≠ none ∧ r.transaction_type = "consumption" :=
  C5_quick_pay_priority "您账户8551于02月21日19:25在财付通-微信支付-山月荟装扮快捷支付3.00元，余额100638.62，您账户8551于03月22日20:26消费CNY 128.50" "subject" "bank@cmb" "date" ⟨2026, 2, 21, 20, 0, 0, 0⟩
    (reSeq [cardTimeRe, reStr "在", RE.grp 5 (RE.plusL dotCls), reStr "快捷支付",
      RE.grp 6 numRe, reStr "元，余额", RE.grp 7 numRe]) rfl (by rfl)

/-- If no pattern of the list matches the text, the loop returns nothing. -/
lemma parseLoop_none (build : String → String → List Char × Caps → Except Unit RawTransaction)
    (l : List (String × String)) (text : String)
    (h : ∀ name ty re, (name, ty) ∈ l → cmb_patterns name = some re →
      reSearch re text.data = none) :
    parseLoop build l text = none := by
  induction l with
  | nil => rfl
  | cons p rest ih =>
    obtain ⟨name, ty⟩ := p
    rcases hcp : cmb_patterns name with _ | re
    · simp only [parseLoop, hcp]
      exact ih fun n t r hm hc => h n t r (List.mem_cons_of_mem _ hm) hc
    · simp only [parseLoop, hcp, h name ty re (List.mem_cons_self _ _) hcp]
      exact ih fun n t r hm hc => h n t r (List.mem_cons_of_mem _ hm) hc

/-- C6: parsing the empty body yields no record; a body matched by no
pattern yields no record; and a pattern whose record builder raises is
skipped — the loop proceeds with the remaining patterns instead of
aborting. In the model `parse` is a total function into `Option`, so no
input raises an uncaught exception. -/
theorem C6_nonmatch_and_error_safety :
    (∀ email_subject email_from email_date now,
      CMBEmailParser.parse "" email_subject email_from email_date now = none) ∧
    (∀ email_body email_subject email_from email_date now,
      (∀ name ty re, (name, ty) ∈ patterns_to_try → cmb_patterns name = some re →
        reSearch re (_clean_text email_body).data = none) →
      CMBEmailParser.parse email_body email_subject email_from email_date now = none) ∧
    (∀ (build : String → String → List Char × Caps → Except Unit RawTransaction)
      (name ty : String) (rest : List (String × String)) (text : String) (re : RE)
      (m : List Char × Caps),
      cmb_patterns name = some re → reSearch re text.data = some m →
      build name ty m = Except.error () →
      parseLoop build ((name, ty) :: rest) text = parseLoop build rest text) := by
  refine ⟨?_, ?_, ?_⟩
  · intro es ef ed now
    rfl
  · intro eb es ef ed now h
    exact parseLoop_none _ patterns_to_try (_clean_text eb) h
  · intro build name ty rest text re m hcp hs hb
    simp only [parseLoop, hcp, hs, hb]

/-- Witness for C6: the empty body, a statement-only body matching no
pattern, and an always-raising builder on a matched pattern. -/
theorem C6_nonmatch_and_error_safety_witness :
    CMBEmailParser.parse "" "s" "f" "d" ⟨2026, 1, 1, 0, 0, 0, 0⟩ = none ∧
    CMBEmailParser.parse "本月对账单已生成，请查收。" "s" "f" "d" ⟨2026, 1, 1, 0, 0, 0, 0⟩ = none ∧
    parseLoop (fun _ _ _ => Except.error ()) [("transfer_out", "transfer_out")]
        "您向张三转账CNY 55.5元" =
      parseLoop (fun _ _ _ => Except.error ()) [] "您向张三转账CNY 55.5元" :=
  ⟨C6_nonmatch_and_error_safety.1 "s" "f" "d" ⟨2026, 1, 1, 0, 0, 0, 0⟩,
   C6_nonmatch_and_error_safety.2.1 "本月对账单已生成，请查收。" "s" "f" "d"
     ⟨2026, 1, 1, 0, 0, 0, 0⟩ (by
       intro name ty re hmem hcp
       simp only [patterns_to_try, List.mem_cons, List.not_mem_nil, or_false,
         Prod.mk.injEq] at hmem
       rcases hmem with ⟨rfl, rfl⟩ | ⟨rfl, rfl⟩ | ⟨rfl, rfl⟩ | ⟨rfl, rfl⟩ | ⟨rfl, rfl⟩ | ⟨rfl, rfl⟩ <;>
         · have hre := Option.some.inj hcp
           subst hre
           rfl),
   C6_nonmatch_and_error_safety.2.2 (fun _ _ _ => Except.error ()) "transfer_out" "transfer_out"
     [] "您向张三转账CNY 55.5元"
     (reSeq [reStr "您向", RE.grp 0 (RE.plusL dotCls), reStr "转账",
       RE.opt (RE.grp 1 (RE.rep upperCls 3)), RE.starG isPySpace, RE.grp 2 numRe,
       RE.opt (RE.lit '元')])
     ("您向张三转账CNY 55.5元".data, [some "张三".data, some "CNY".data, some "55.5".data,
       none, none, none, none, none])
     rfl (by rfl) rfl⟩

/-- Erase the only clock-dependent field of a parsed record. -/
def stripTime (r : RawTransaction) : RawTransaction :=
  { r with transaction_time := ⟨0, 0, 0, 0, 0, 0, 0⟩ }

/-- `_extract_time` raises for one clock value iff it raises for any
other: the uncaught `TypeError` depends only on the groups. -/
lemma extract_time_cases (groups : List (Option (List Char))) (name : String)
    (now1 now2 : PyDateTime) :
    (_extract_time groups name now1 = Except.error () ∧
      _extract_time groups name now2 = Except.error ()) ∨
    (∃ t1 t2, _extract_time groups name now1 = Except.ok t1 ∧
      _extract_time groups name now2 = Except.ok t2) := by
  have hok : ∀ (now : PyDateTime) (e : Except Unit PyDateTime), e = Except.error () ∨ ∃ t, e = Except.ok t := by
    intro now e
    rcases e with u | t
    · exact Or.inl rfl
    · exact Or.inr ⟨t, rfl⟩
  by_cases hn : name ∈ ["quick_pay", "merchant_consumption", "consumption", "income", "income_with_balance"]
  · simp only [_extract_time, if_pos hn]
    rcases hg1 : groups.getD 1 none with _ | g1 <;> simp only [hg1]
    · exact Or.inl ⟨trivial, trivial⟩
    rcases hp1 : pyInt? g1 with _ | mo <;> simp only [hp1]
    · exact Or.inr ⟨now1, now2, rfl, rfl⟩
    rcases hg2 : groups.getD 2 none with _ | g2 <;> simp only [hg2]
    · exact Or.inl ⟨trivial, trivial⟩
    rcases hp2 : pyInt? g2 with _ | dy <;> simp only [hp2]
    · exact Or.inr ⟨now1, now2, rfl, rfl⟩
    rcases hg3 : groups.getD 3 none with _ | g3 <;> simp only [hg3]
    · exact Or.inl ⟨trivial, trivial⟩
    rcases hp3 : pyInt? g3 with _ | hr <;> simp only [hp3]
    · exact Or.inr ⟨now1, now2, rfl, rfl⟩
    rcases hg4 : groups.getD 4 none with _ | g4 <;> simp only [hg4]
    · exact Or.inl ⟨trivial, trivial⟩
    rcases hp4 : pyInt? g4 with _ | mi <;> simp only [hp4]
    · exact Or.inr ⟨now1, now2, rfl, rfl⟩
    refine Or.inr ?_
    have h1 : ∃ t, (if ValidDT ⟨(if mo > now1.month then now1.year - 1 else now1.year), mo, dy, hr, mi, 0, 0⟩ then
        (Except.ok (⟨(if mo > now1.month then now1.year - 1 else now1.year), mo, dy, hr, mi, 0, 0⟩ : PyDateTime) : Except Unit PyDateTime)
      else Except.ok now1) = Except.ok t := by
      split <;> split <;> exact ⟨_, rfl⟩
    have h2 : ∃ t, (if ValidDT ⟨(if mo > now2.month then now2.year - 1 else now2.year), mo, dy, hr, mi, 0, 0⟩ then
        (Except.ok (⟨(if mo > now2.month then now2.year - 1 else now2.year), mo, dy, hr, mi, 0, 0⟩ : PyDateTime) : Except Unit PyDateTime)
      else Except.ok now2) = Except.ok t := by
      split <;> split <;> exact ⟨_, rfl⟩
    obtain ⟨t1, ht1⟩ := h1
    obtain ⟨t2, ht2⟩ := h2
    exact ⟨t1, t2, ht1, ht2⟩
  · exact Or.inr ⟨now1, now2, by simp [_extract_time, hn], by simp [_extract_time, hn]⟩

/-- The builder is clock-independent except for the transaction time. -/
lemma build_map_stripTime (m0 : List Char) (caps : Caps) (name ty : String)
    (text email_subject email_from email_date : String) (now1 now2 : PyDateTime) :
    (_build_transaction m0 caps name ty text email_subject email_from email_date now1).map stripTime =
    (_build_transaction m0 caps name ty text email_subject email_from email_date now2).map stripTime := by
  rcases extract_time_cases (caps.take (groupCount name)) name now1 now2 with
    ⟨h1, h2⟩ | ⟨t1, t2, h1, h2⟩ <;>
    simp only [_build_transaction, h1, h2]
  rcases _extract_amount (caps.take (groupCount name)) name with e | a
  · rfl
  rcases _extract_balance (caps.take (groupCount name)) name text with e | b
  · rfl
  rfl

/-- Clock-independence of the loop, given clock-independence of the
builders. -/
lemma parseLoop_map_stripTime (b1 b2 : String → String → List Char × Caps → Except Unit RawTransaction)
    (h : ∀ name ty m, (b1 name ty m).map stripTime = (b2 name ty m).map stripTime)
    (l : List (String × String)) (text : String) :
    (parseLoop b1 l text).map stripTime = (parseLoop b2 l text).map stripTime := by
  induction l with
  | nil => rfl
  | cons p rest ih =>
    obtain ⟨name, ty⟩ := p
    rcases hcp : cmb_patterns name with _ | re
    · simp only [parseLoop, hcp]
      exact ih
    · rcases hs : reSearch re text.data with _ | m
      · simp only [parseLoop, hcp, hs]
        exact ih
      · have hm := h name ty m
        rcases hb1 : b1 name ty m with e1 | r1 <;> rcases hb2 : b2 name ty m with e2 | r2 <;>
          rw [hb1, hb2] at hm
        · simp only [parseLoop, hcp, hs, hb1, hb2]
          exact ih
        · exact absurd hm (by simp [Except.map])
        · exact absurd hm (by simp [Except.map])
        · simp only [parseLoop, hcp, hs, hb1, hb2]
          simp only [Except.map] at hm
          injection hm with hm2
          simp [hm2]

/-- C8 (amended): `parse` is a pure function of the body, subject, sender
and date header together with the clock read by `_extract_time`, and the
clock influences nothing but the record transaction time: stripping
`transaction_time` makes the result identical for any two clock values
(match/non-match outcome included). -/
theorem C8_clock_only_moves_transaction_time
    (email_body email_subject email_from email_date : String) (now1 now2 : PyDateTime) :
    (CMBEmailParser.parse email_body email_subject email_from email_date now1).map stripTime =
    (CMBEmailParser.parse email_body email_subject email_from email_date now2).map stripTime :=
  parseLoop_map_stripTime _ _
    (fun name ty m => build_map_stripTime m.1 m.2 name ty (_clean_text email_body)
      email_subject email_from email_date now1 now2)
    patterns_to_try (_clean_text email_body)

/-- Counterexample to C8 as stated: the identical inputs parsed at two
different clock instants (February vs March 2026) yield records with
different transaction times — the year-inference heuristic reads the
clock, so `parse` is not a pure function of the message inputs alone. -/
theorem C8_counterexample :
    (CMBEmailParser.parse "您账户8551于03月21日19:25在财付通-微信支付-山月荟快捷支付3.00元，余额1.00" "" "" "" ⟨2026, 2, 10, 0, 0, 0, 0⟩).map
        (fun r => r.transaction_time) = some ⟨2025, 3, 21, 19, 25, 0, 0⟩ ∧
    (CMBEmailParser.parse "您账户8551于03月21日19:25在财付通-微信支付-山月荟快捷支付3.00元，余额1.00" "" "" "" ⟨2026, 3, 10, 0, 0, 0, 0⟩).map
        (fun r => r.transaction_time) = some ⟨2026, 3, 21, 19, 25, 0, 0⟩ ∧
    CMBEmailParser.parse "您账户8551于03月21日19:25在财付通-微信支付-山月荟快捷支付3.00元，余额1.00" "" "" "" ⟨2026, 2, 10, 0, 0, 0, 0⟩ ≠
      CMBEmailParser.parse "您账户8551于03月21日19:25在财付通-微信支付-山月荟快捷支付3.00元，余额1.00" "" "" "" ⟨2026, 3, 10, 0, 0, 0, 0⟩ := by
  refine ⟨by rfl, by rfl, ?_⟩
  intro h
  have h2 : (CMBEmailParser.parse "您账户8551于03月21日19:25在财付通-微信支付-山月荟快捷支付3.00元，余额1.00" "" "" "" ⟨2026, 2, 10, 0, 0, 0, 0⟩).map
      (fun r => r.transaction_time) = (CMBEmailParser.parse "您账户8551于03月21日19:25在财付通-微信支付-山月荟快捷支付3.00元，余额1.00" "" "" ""
      ⟨2026, 3, 10, 0, 0, 0, 0⟩).map (fun r => r.transaction_time) := by rw [h]
  rw [show (CMBEmailParser.parse "您账户8551于03月21日19:25在财付通-微信支付-山月荟快捷支付3.00元，余额1.00" "" "" "" ⟨2026, 2, 10, 0, 0, 0, 0⟩).map
      (fun r => r.transaction_time) = some ⟨2025, 3, 21, 19, 25, 0, 0⟩ from rfl,
    show (CMBEmailParser.parse "您账户8551于03月21日19:25在财付通-微信支付-山月荟快捷支付3.00元，余额1.00" "" "" "" ⟨2026, 3, 10, 0, 0, 0, 0⟩).map
      (fun r => r.transaction_time) = some ⟨2026, 3, 21, 19, 25, 0, 0⟩ from rfl] at h2
  injection h2 with h3
  exact absurd (congrArg PyDateTime.year h3) (by decide)

/-- C9 (amended): with all four time groups present and parsing as
numbers, the extracted month/day/hour/minute are used with the year set
to the current year, decremented by one exactly when the extracted month
exceeds the clock month — but only when the resulting calendar datetime
is valid; otherwise the whole timestamp silently falls back to the clock
value `now` (so the extracted fields, and the year rule, are discarded). -/
theorem C9_year_inference (groups : List (Option (List Char))) (pattern_name : String)
    (now : PyDateTime) (g1 g2 g3 g4 : List Char) (month day hour minute : Nat)
    (hname : pattern_name ∈ ["quick_pay", "merchant_consumption", "consumption", "income", "income_with_balance"])
    (h1 : groups.getD 1 none = some g1) (h2 : groups.getD 2 none = some g2)
    (h3 : groups.getD 3 none = some g3) (h4 : groups.getD 4 none = some g4)
    (p1 : pyInt? g1 = some month) (p2 : pyInt? g2 = some day)
    (p3 : pyInt? g3 = some hour) (p4 : pyInt? g4 = some minute) :
    (ValidDT ⟨(if month > now.month then now.year - 1 else now.year), month, day, hour, minute, 0, 0⟩ →
      _extract_time groups pattern_name now =
        Except.ok ⟨(if month > now.month then now.year - 1 else now.year), month, day, hour, minute, 0, 0⟩) ∧
    (¬ ValidDT ⟨(if month > now.month then now.year - 1 else now.year), month, day, hour, minute, 0, 0⟩ →
      _extract_time groups pattern_name now = Except.ok now) := by
  constructor <;> intro hv
  · simp only [_extract_time, if_pos hname, h1, h2, h3, h4, p1, p2, p3, p4, if_pos hv]
  · simp only [_extract_time, if_pos hname, h1, h2, h3, h4, p1, p2, p3, p4, if_neg hv]

/-- Witness for C9 on groups giving February 21st 19:25 against a May
2026 clock: the date is valid and the month does not exceed the clock
month, so the year stays 2026. -/
theorem C9_year_inference_witness :
    _extract_time [none, some ['0', '2'], some ['2', '1'], some ['1', '9'], some ['2', '5'],
      none, none, none] "consumption" ⟨2026, 5, 1, 0, 0, 0, 0⟩ =
      Except.ok ⟨2026, 2, 21, 19, 25, 0, 0⟩ :=
  (C9_year_inference [none, some ['0', '2'], some ['2', '1'], some ['1', '9'], some ['2', '5'],
      none, none, none] "consumption" ⟨2026, 5, 1, 0, 0, 0, 0⟩ ['0', '2'] ['2', '1'] ['1', '9']
      ['2', '5'] 2 21 19 25 (by decide) rfl rfl rfl rfl (by decide) (by decide) (by decide)
      (by decide)).1 (by decide)

/-- Counterexample to C9 as stated: a matched message whose extracted
month (13) exceeds the clock month (5) does not get year
`now.year - 1 = 2025`: the datetime constructor rejects month 13, the
`ValueError` is caught, and the record time falls back to the clock value
(year 2026, month 5) — the extracted fields are discarded entirely. -/
theorem C9_counterexample :
    (CMBEmailParser.parse "您账户8551于13月40日19:25在财付通-微信支付-山月荟快捷支付3.00元，余额1.00" "" "" "" ⟨2026, 5, 1, 12, 30, 0, 0⟩).map
        (fun r => r.transaction_time) = some ⟨2026, 5, 1, 12, 30, 0, 0⟩ ∧
    (CMBEmailParser.parse "您账户8551于13月40日19:25在财付通-微信支付-山月荟快捷支付3.00元，余额1.00" "" "" "" ⟨2026, 5, 1, 12, 30, 0, 0⟩).map
        (fun r => r.transaction_time.year) ≠ some (2026 - 1) := by
  refine ⟨by rfl, ?_⟩
  rw [show (CMBEmailParser.parse "您账户8551于13月40日19:25在财付通-微信支付-山月荟快捷支付3.00元，余额1.00" "" "" "" ⟨2026, 5, 1, 12, 30, 0, 0⟩).map
      (fun r => r.transaction_time.year) = some 2026 from rfl]
  intro h
  injection h with h2
  exact absurd h2 (by decide)
